import Mathlib

/-!
Shallow embedding of the "robots" bytecode compiler and virtual machine
(`robots-bytecode.py`): lexer, grid loader, label enumeration, path
parsing, jump coalescing, layout/link, image assembly, VM loader and
VM executor.  Machine bytes are modelled as `Nat`, Python integers as
`Int` (Python `//` and `%` are `Int.fdiv` / `Int.fmod`, `&`/`|` on
integers are `Int.land` / `Int.lor`).  Python exceptions are modelled
with `Except Err`; unbounded loops take an explicit fuel argument and
report exhaustion as `Err.outOfFuel`.
-/

set_option maxRecDepth 100000

namespace Robots

/-- Errors: each constructor stands for one exception the Python code can
raise (ValueError / IndexError / KeyError / ZeroDivisionError ...), plus
`outOfFuel` marking a loop that did not finish within the given fuel. -/
inductive Err
  | lexErr (c : Char)
  | malformedGrid (row : Nat)
  | noGrid
  | digitBad
  | indexErr
  | keyErr
  | labelNotFound
  | tooManyLabels
  | addrTooLarge
  | unhandledToken
  | unhandledStackOp
  | makeByteBad
  | byteRange
  | badMagic
  | badVersion
  | stackUnderflow
  | divZero
  | unknownOpcode
  | outOfFuel
deriving DecidableEq, Repr

/-- `TokenType` from the source. -/
inductive TokenType
  | T_NOP
  | T_HALT
  | T_START
  | T_TURN
  | T_STACK_OP
  | T_COND
  | T_READ_BYTE
  | T_WRITE_BYTE
  | T_DIGIT
  | T_COMMENT
deriving DecidableEq, Repr

/-- `Token` dataclass: a kind together with the source character. -/
structure Token where
  type : TokenType
  value : Char
deriving DecidableEq, Repr

/-- Opcode nibbles (`ByteCode` IntEnum). -/
def OP_HALT : Nat := 0

def OP_LOAD : Nat := 1

def OP_STORE : Nat := 2

def OP_STACK : Nat := 3

def OP_JMP : Nat := 4

def OP_JZ : Nat := 5

def OP_PUSH : Nat := 8

/-- `jump_bytes`: the two long-form jump opcode bytes. -/
def jumpBytes : List Nat := [Nat.lor (Nat.shiftLeft OP_JMP 4) 0x0f, Nat.lor (Nat.shiftLeft OP_JZ 4) 0x0f]

/-- Stack sub-opcodes (`StackOp` IntEnum), kept as numbers as the VM
dispatches on the raw argument nibble. -/
def STACK_SUB : Nat := 0

def STACK_ADD : Nat := 1

def STACK_MUL : Nat := 2

def STACK_DIV : Nat := 3

def STACK_MOD : Nat := 4

def STACK_AND : Nat := 5

def STACK_OR : Nat := 6

def STACK_NOT : Nat := 7

def STACK_POP : Nat := 8

def STACK_SWAP : Nat := 9

def STACK_DUP : Nat := 10

/-- `lex_char`: classify one character, raising `ValueError` on anything
unknown. -/
def lexChar (ch : Char) : Except Err Token :=
  if ch = ' ' then .ok ⟨.T_NOP, ch⟩
  else if ch = ';' then .ok ⟨.T_COMMENT, ch⟩
  else if ch = '@' then .ok ⟨.T_HALT, ch⟩
  else if ch = 'N' ∨ ch = 'S' ∨ ch = 'E' ∨ ch = 'W' then .ok ⟨.T_START, ch⟩
  else if ch = '<' ∨ ch = '^' ∨ ch = '>' ∨ ch = 'v' then .ok ⟨.T_TURN, ch⟩
  else if ch = '-' ∨ ch = '+' ∨ ch = '*' ∨ ch = '/' ∨ ch = '%' ∨ ch = '&' ∨
      ch = '|' ∨ ch = '~' ∨ ch = '!' ∨ ch = ':' ∨ ch = '$' then .ok ⟨.T_STACK_OP, ch⟩
  else if ch = '_' then .ok ⟨.T_COND, ch⟩
  else if '0' ≤ ch ∧ ch ≤ '9' then .ok ⟨.T_DIGIT, ch⟩
  else if ch = '?' then .ok ⟨.T_READ_BYTE, ch⟩
  else if ch = '#' then .ok ⟨.T_WRITE_BYTE, ch⟩
  else .error (.lexErr ch)

/-- `dir_vec`: direction of a TURN / START character.  `(0,0)` is upper
left, `+y` is down.  The Python dict raises `KeyError` on other keys,
modelled by `none`. -/
def dirVec (ch : Char) : Option (Int × Int) :=
  if ch = '^' then some (0, -1)
  else if ch = 'v' then some (0, 1)
  else if ch = '<' then some (-1, 0)
  else if ch = '>' then some (1, 0)
  else if ch = 'N' then some (0, -1)
  else if ch = 'S' then some (0, 1)
  else if ch = 'W' then some (-1, 0)
  else if ch = 'E' then some (1, 0)
  else none

/-- `Label` dataclass: a code-path head. -/
structure Label where
  location : Int × Int
  direction : Int × Int
  refcount : Nat
deriving DecidableEq, Repr

/-- Python list indexing `l[i]`: a negative index wraps once from the
end; anything still out of range raises `IndexError`. -/
def pyGet {α : Type} (l : List α) (i : Int) : Except Err α :=
  let j : Int := if i < 0 then i + l.length else i
  if 0 ≤ j ∧ j < l.length then
    match l.get? j.toNat with
    | some a => .ok a
    | none => .error .indexErr
  else .error .indexErr

/-- Python `bytearray` item assignment `l[i] = v` for an already-masked
`Nat` value: the value must lie in `0..255` (else `ValueError`) and the
index must be in range (else `IndexError`). -/
def pySetByte (l : List Nat) (i : Int) (v : Nat) : Except Err (List Nat) :=
  if 256 ≤ v then .error .byteRange
  else
    let j : Int := if i < 0 then i + l.length else i
    if 0 ≤ j ∧ j < l.length then .ok (l.set j.toNat v) else .error .indexErr

/-- Python `bytearray` item assignment with a possibly negative Python
int on the right-hand side. -/
def pySetByteInt (l : List Nat) (i : Int) (v : Int) : Except Err (List Nat) :=
  if v < 0 ∨ 256 ≤ v then .error .byteRange
  else pySetByte l i v.toNat

/-- Python `str.splitlines` on `\n`-separated text, over the character
list: rows are cut at every newline, a trailing newline produces no
final empty row, and the empty string has no rows. -/
def splitlinesGo : List Char → List Char → List (List Char)
  | [], acc => if acc = [] then [] else [acc.reverse]
  | c :: cs, acc =>
    if c = '\n' then acc.reverse :: splitlinesGo cs [] else splitlinesGo cs (c :: acc)

/-- `source.splitlines()`. -/
def splitlines (s : String) : List (List Char) := splitlinesGo s.data []

/-- Lex one raw row left to right; a COMMENT token ends the row without
being stored (`break`), so characters after `;` are never lexed. -/
def lexRow : List Char → Except Err (List Token)
  | [] => .ok []
  | c :: cs =>
    match lexChar c with
    | .error e => .error e
    | .ok t =>
      if t.type = .T_COMMENT then .ok []
      else
        match lexRow cs with
        | .error e => .error e
        | .ok rest => .ok (t :: rest)

/-- Result of `Compiler.load_string`: grid dimensions, the tokenized
grid, and the DIGIT-seeded memory initializers in insertion order. -/
structure Loaded where
  dimX : Int
  dimY : Int
  grid : List (List Token)
  memAddrs : List (Int × Nat)
deriving DecidableEq, Repr

/-- Insertion-ordered dict update (`OrderedDict` assignment). -/
def dictSetInt (m : List (Int × Nat)) (k : Int) (v : Nat) : List (Int × Nat) :=
  if m.any (fun p => p.1 = k) then m.map (fun p => if p.1 = k then (k, v) else p)
  else m ++ [(k, v)]

/-- `Compiler.init_mem` over one row: record `addr16 = x + y·dimX ↦ digit`
for every DIGIT token, re-checking that its character is a digit. -/
def initMemCells (dimX : Int) (y : Nat) : Nat → List Token → List (Int × Nat) →
    Except Err (List (Int × Nat))
  | _, [], acc => .ok acc
  | x, tok :: rest, acc =>
    if tok.type = .T_DIGIT then
      let addr16 : Int := (x : Int) + (y : Int) * dimX
      if '0' ≤ tok.value ∧ tok.value ≤ '9' then
        initMemCells dimX y (x + 1) rest (dictSetInt acc addr16 (tok.value.toNat - 48))
      else .error .digitBad
    else initMemCells dimX y (x + 1) rest acc

/-- `Compiler.init_mem` over all rows. -/
def initMemRows (dimX : Int) : Nat → List (List Token) → List (Int × Nat) →
    Except Err (List (Int × Nat))
  | _, [], acc => .ok acc
  | y, row :: rest, acc =>
    match initMemCells dimX y 0 row acc with
    | .error e => .error e
    | .ok acc2 => initMemRows dimX (y + 1) rest acc2

/-- `Compiler.init_mem`: raises if no grid is loaded, then scans the
grid for DIGIT tokens. -/
def initMem (dimX : Int) (grid : List (List Token)) : Except Err (List (Int × Nat)) :=
  if grid = [] then .error .noGrid
  else initMemRows dimX 0 grid []

/-- `Compiler.load_string` row loop: each raw line must have exactly the
width of the first line (checked before lexing, so comment rows are not
exempt), then is lexed up to an optional comment. -/
def loadRows (width : Nat) : Nat → List (List Char) → Except Err (List (List Token))
  | _, [] => .ok []
  | y, r :: rs =>
    if r.length ≠ width then .error (.malformedGrid y)
    else
      match lexRow r with
      | .error e => .error e
      | .ok row =>
        match loadRows width (y + 1) rs with
        | .error e => .error e
        | .ok rest => .ok (row :: rest)

/-- The body of `Compiler.load_string` on the split rows: `str_grid[0]`
raises `IndexError` on an empty source; each row is length-checked and
lexed; then `init_mem` runs. -/
def loadStringRows : List (List Char) → Except Err Loaded
  | [] => .error .indexErr
  | r0 :: rest =>
    match loadRows r0.length 0 (r0 :: rest) with
    | .error e => .error e
    | .ok grid =>
      match initMem (r0.length : Int) grid with
      | .error e => .error e
      | .ok mem => .ok ⟨(r0.length : Int), ((r0 :: rest).length : Int), grid, mem⟩

/-- `Compiler.load_string`: split the source into raw lines (the first
line's length is the declared width, read before any checking), parse
the token grid, then seed the memory initializers. -/
def loadString (source : String) : Except Err Loaded :=
  loadStringRows (splitlines source)

/-- `Compiler.find_path_heads` body for a single token: append the
label(s) this token heads, record entry points, then check the label
budget (`>= 255` raises). -/
def fphTok (labels : List Label) (eps : List Nat) (x y : Nat) (tok : Token) :
    Except Err (List Label × List Nat) :=
  let step : Except Err (List Label × List Nat) :=
    match tok.type with
    | .T_START =>
      match dirVec tok.value with
      | none => .error .keyErr
      | some d => .ok (labels ++ [⟨((x : Int), (y : Int)), d, 1⟩], eps ++ [labels.length])
    | .T_TURN =>
      match dirVec tok.value with
      | none => .error .keyErr
      | some d => .ok (labels ++ [⟨((x : Int), (y : Int)), d, 0⟩], eps)
    | .T_COND =>
      .ok (labels ++ [⟨((x : Int), (y : Int)), (-1, 0), 0⟩, ⟨((x : Int), (y : Int)), (1, 0), 1⟩], eps)
    | _ => .ok (labels, eps)
  match step with
  | .error e => .error e
  | .ok (labels2, eps2) =>
    if 255 ≤ labels2.length then .error .tooManyLabels else .ok (labels2, eps2)

/-- `find_path_heads` inner loop: `x` ranges over the width of row 0,
reading `input_grid[y][x]` (an `IndexError` on shorter rows). -/
def fphCells (row : List Token) (y : Nat) : Nat → Nat → List Label → List Nat →
    Except Err (List Label × List Nat)
  | _, 0, labels, eps => .ok (labels, eps)
  | x, n + 1, labels, eps =>
    match row.get? x with
    | none => .error .indexErr
    | some tok =>
      match fphTok labels eps x y tok with
      | .error e => .error e
      | .ok (labels2, eps2) => fphCells row y (x + 1) n labels2 eps2

/-- `find_path_heads` outer loop over rows. -/
def fphRows (width : Nat) : Nat → List (List Token) → List Label → List Nat →
    Except Err (List Label × List Nat)
  | _, [], labels, eps => .ok (labels, eps)
  | y, row :: rest, labels, eps =>
    match fphCells row y 0 width labels eps with
    | .error e => .error e
    | .ok (labels2, eps2) => fphRows width (y + 1) rest labels2 eps2

/-- `Compiler.find_path_heads`: enumerate labels (entry points, turns,
conditional branch pairs) in row-major order. -/
def findPathHeads (grid : List (List Token)) : Except Err (List Label × List Nat) :=
  fphRows (grid.headD []).length 0 grid [] []

/-- `make_byte`: `(op << 4) | (arg & 0xff)` after checking `0 ≤ arg ≤ 15`. -/
def makeByte (op : Nat) (arg : Int) : Except Err Nat :=
  if arg < 0 ∨ 15 < arg then .error .makeByteBad
  else .ok (Nat.lor (Nat.shiftLeft op 4) (Int.land arg 0xff).toNat)

/-- `Compiler.get_label_index`: first label with the same direction and
location (refcount ignored); `ValueError` if absent. -/
def getLabelIndex (labels : List Label) (loc dir : Int × Int) : Except Err Nat :=
  match labels.findIdx? (fun l => decide (l.direction = dir ∧ l.location = loc)) with
  | some i => .ok i
  | none => .error .labelNotFound

/-- `Compiler.comp_jump_target`: bump the target label's refcount and
return the two-byte long-form jump `[(op << 4) | 0xf, target_index]`. -/
def compJumpTarget (labels : List Label) (jumpOp : Nat) (loc dir : Int × Int) :
    Except Err (List Label × List Nat) :=
  match getLabelIndex labels loc dir with
  | .error e => .error e
  | .ok ti =>
    match labels.get? ti with
    | none => .error .indexErr
    | some lab =>
      match makeByte jumpOp 0xf with
      | .error e => .error e
      | .ok b => .ok (labels.set ti { lab with refcount := lab.refcount + 1 }, [b, ti])

/-- The `match token.value` table for STACK_OP characters in
`parse_paths`. -/
def stackOpOfChar (ch : Char) : Except Err Nat :=
  if ch = '-' then .ok STACK_SUB
  else if ch = '+' then .ok STACK_ADD
  else if ch = '*' then .ok STACK_MUL
  else if ch = '/' then .ok STACK_DIV
  else if ch = '%' then .ok STACK_MOD
  else if ch = '&' then .ok STACK_AND
  else if ch = '|' then .ok STACK_OR
  else if ch = '~' then .ok STACK_NOT
  else if ch = '!' then .ok STACK_POP
  else if ch = '$' then .ok STACK_SWAP
  else if ch = ':' then .ok STACK_DUP
  else .error .unhandledStackOp

/-- The `while True` walk of `Compiler.parse_paths`: step from `loc` in
direction `dir`, emitting bytes until a terminator (HALT, TURN, START or
COND).  Grid reads use Python list indexing (negative indices wrap). -/
def parseWalk (grid : List (List Token)) (dimX : Int) :
    Nat → List Label → Int × Int → Int × Int → List Nat →
    Except Err (List Label × List Nat)
  | 0, _, _, _, _ => .error .outOfFuel
  | fuel + 1, labels, loc, dir, path =>
    let x := loc.1
    let y := loc.2
    match pyGet grid y with
    | .error e => .error e
    | .ok row =>
      match pyGet row x with
      | .error e => .error e
      | .ok tok =>
        match tok.type with
        | .T_HALT =>
          match makeByte OP_HALT 0 with
          | .error e => .error e
          | .ok b => .ok (labels, path ++ [b])
        | .T_TURN =>
          match dirVec tok.value with
          | none => .error .keyErr
          | some d =>
            match compJumpTarget labels OP_JMP (x, y) d with
            | .error e => .error e
            | .ok (labels2, bs) => .ok (labels2, path ++ bs)
        | .T_START =>
          match dirVec tok.value with
          | none => .error .keyErr
          | some d =>
            match compJumpTarget labels OP_JMP (x, y) d with
            | .error e => .error e
            | .ok (labels2, bs) => .ok (labels2, path ++ bs)
        | .T_COND =>
          match compJumpTarget labels OP_JZ (x, y) (1, 0) with
          | .error e => .error e
          | .ok (labels2, bs1) =>
            match compJumpTarget labels2 OP_JMP (x, y) (-1, 0) with
            | .error e => .error e
            | .ok (labels3, bs2) => .ok (labels3, path ++ bs1 ++ bs2)
        | .T_DIGIT =>
          let addr16 : Int := x + y * dimX
          if 32767 < addr16 then .error .addrTooLarge
          else
            let hi := Nat.lor (Nat.shiftLeft OP_PUSH 4) (Int.land (Int.fdiv addr16 256) 0x7f).toNat
            let lo := (Int.land addr16 0xff).toNat
            parseWalk grid dimX fuel labels (x + dir.1, y + dir.2) dir (path ++ [hi, lo])
        | .T_STACK_OP =>
          match stackOpOfChar tok.value with
          | .error e => .error e
          | .ok sop =>
            match makeByte OP_STACK (sop : Int) with
            | .error e => .error e
            | .ok b => parseWalk grid dimX fuel labels (x + dir.1, y + dir.2) dir (path ++ [b])
        | .T_READ_BYTE =>
          match makeByte OP_LOAD 0 with
          | .error e => .error e
          | .ok b => parseWalk grid dimX fuel labels (x + dir.1, y + dir.2) dir (path ++ [b])
        | .T_WRITE_BYTE =>
          match makeByte OP_STORE 0 with
          | .error e => .error e
          | .ok b => parseWalk grid dimX fuel labels (x + dir.1, y + dir.2) dir (path ++ [b])
        | .T_NOP => parseWalk grid dimX fuel labels (x + dir.1, y + dir.2) dir path
        | .T_COMMENT => .error .unhandledToken

/-- `Compiler.parse_paths` loop over label indices `0..n-1`; refcount
updates made by `comp_jump_target` are threaded through. -/
def parsePathsGo (grid : List (List Token)) (dimX : Int) (fuel : Nat) :
    Nat → Nat → List Label → List (List Nat) →
    Except Err (List Label × List (List Nat))
  | _, 0, labels, paths => .ok (labels, paths)
  | i, k + 1, labels, paths =>
    match labels.get? i with
    | none => .error .indexErr
    | some lab =>
      match parseWalk grid dimX fuel labels
          (lab.location.1 + lab.direction.1, lab.location.2 + lab.direction.2)
          lab.direction [] with
      | .error e => .error e
      | .ok (labels2, path) => parsePathsGo grid dimX fuel (i + 1) k labels2 (paths ++ [path])

/-- `Compiler.parse_paths`. -/
def parsePaths (grid : List (List Token)) (dimX : Int) (fuel : Nat) (labels : List Label) :
    Except Err (List Label × List (List Nat)) :=
  parsePathsGo grid dimX fuel 0 labels.length labels []

/-- `Compiler.maximally_extend_path` as a state-passing loop: scan block
`idx` from byte position `i`; skip 2 bytes at a PUSH; at a long-form jump
whose target label has refcount `< 2`, recursively extend the target and
splice its block over the two jump bytes, resuming at `i + 1` exactly as
the Python `while` loop does.  In-place bytearray mutation is modelled by
re-reading block `idx` from the state each iteration. -/
def mepGo (labels : List Label) : Nat → List (List Nat) → Nat → Nat →
    Except Err (List (List Nat))
  | 0, _, _, _ => .error .outOfFuel
  | fuel + 1, paths, idx, i =>
    match paths.get? idx with
    | none => .error .keyErr
    | some path =>
      if i < path.length then
        let b := path.getD i 0
        if Nat.land b 0x80 ≠ 0 then mepGo labels fuel paths idx (i + 2)
        else if b ∈ jumpBytes then
          match path.get? (i + 1) with
          | none => .error .indexErr
          | some target =>
            match labels.get? target with
            | none => .error .indexErr
            | some lab =>
              if lab.refcount < 2 then
                match mepGo labels fuel paths target 0 with
                | .error e => .error e
                | .ok paths2 =>
                  let ext := paths2.getD target []
                  let cur := paths2.getD idx []
                  mepGo labels fuel (paths2.set idx (cur.take i ++ ext ++ cur.drop (i + 2)))
                    idx (i + 1)
              else mepGo labels fuel paths idx (i + 1)
        else mepGo labels fuel paths idx (i + 1)
      else .ok paths

/-- `maximally_extend_path(path_index)` from the top. -/
def maximallyExtendPath (labels : List Label) (fuel : Nat) (paths : List (List Nat))
    (idx : Nat) : Except Err (List (List Nat)) :=
  mepGo labels fuel paths idx 0

/-- The coalescing loop of `Compiler.compile`:
`for label in jump_labels: maximally_extend_path(get_label_index(label))`. -/
def coalesceAllGo (labels : List Label) (fuel : Nat) : List Label → List (List Nat) →
    Except Err (List (List Nat))
  | [], paths => .ok paths
  | lab :: rest, paths =>
    match getLabelIndex labels lab.location lab.direction with
    | .error e => .error e
    | .ok idx =>
      match mepGo labels fuel paths idx 0 with
      | .error e => .error e
      | .ok paths2 => coalesceAllGo labels fuel rest paths2

/-- One full coalescer pass over every label. -/
def coalesceAll (labels : List Label) (fuel : Nat) (paths : List (List Nat)) :
    Except Err (List (List Nat)) :=
  coalesceAllGo labels fuel labels paths

/-- Insertion-ordered dict update with `Nat` keys (`label_offsets`). -/
def dictSetNat (m : List (Nat × Nat)) (k v : Nat) : List (Nat × Nat) :=
  if m.any (fun p => p.1 = k) then m.map (fun p => if p.1 = k then (k, v) else p)
  else m ++ [(k, v)]

/-- Python dict lookup (`KeyError` when the key is absent). -/
def dictGetNat (m : List (Nat × Nat)) (k : Nat) : Except Err Nat :=
  match m.find? (fun p => p.1 = k) with
  | some p => .ok p.2
  | none => .error .keyErr

/-- The scan-for-successors loop inside `Compiler.compile`'s layout
walk: push every not-yet-seen jump target of `path` onto the work stack
(the stack's head is Python's list end). -/
def layoutScanGo (seen : List Nat) (path : List Nat) : Nat → Nat → List Nat →
    Except Err (List Nat)
  | 0, _, _ => .error .outOfFuel
  | fuel + 1, i, stack =>
    if i < path.length then
      let b := path.getD i 0
      if Nat.land b 0x80 ≠ 0 then layoutScanGo seen path fuel (i + 2) stack
      else if b ∈ jumpBytes then
        match path.get? (i + 1) with
        | none => .error .indexErr
        | some t =>
          if t ∈ seen then layoutScanGo seen path fuel (i + 1) stack
          else layoutScanGo seen path fuel (i + 1) (t :: stack)
      else layoutScanGo seen path fuel (i + 1) stack
    else .ok stack

/-- The `while path_stack` layout loop of `Compiler.compile`: pop a
label index, mark it seen, record its offset, push its unseen jump
targets, and append its block to the code segment. -/
def layoutGo (paths : List (List Nat)) : Nat → List Nat → List Nat → List (Nat × Nat) →
    List Nat → Nat → Except Err (List Nat × List (Nat × Nat))
  | 0, _, _, _, _, _ => .error .outOfFuel
  | fuel + 1, stack, seen, offsets, code, offset =>
    match stack with
    | [] => .ok (code, offsets)
    | idx :: rest =>
      let seen2 := if idx ∈ seen then seen else idx :: seen
      let offsets2 := dictSetNat offsets idx offset
      match paths.get? idx with
      | none => .error .keyErr
      | some path =>
        match layoutScanGo seen2 path fuel 0 rest with
        | .error e => .error e
        | .ok stack2 =>
          layoutGo paths fuel stack2 seen2 offsets2 (code ++ path) (offset + path.length)

/-- `magic = bytearray(map(ord, "JED?"))`. -/
def magicBytes : List Nat := [74, 69, 68, 63]

/-- `version = [1, 0]`. -/
def versionBytes : List Nat := [1, 0]

/-- `bytearray.extend` of a single value (range-checked). -/
def pyExtendByte (l : List Nat) (v : Nat) : Except Err (List Nat) :=
  if 256 ≤ v then .error .byteRange else .ok (l ++ [v])

/-- `Compiler.build_header`: magic, version, `0xff` placeholders for
memory length / stride / data offset, entry count, then the entry
labels' indices. -/
def buildHeaderGo : List Nat → List Nat → Except Err (List Nat)
  | header, [] => .ok header
  | header, ep :: rest =>
    match pyExtendByte header ep with
    | .error e => .error e
    | .ok h2 => buildHeaderGo h2 rest

/-- `Compiler.build_header`. -/
def buildHeader (entryPoints : List Nat) : Except Err (List Nat) :=
  match pyExtendByte (magicBytes ++ versionBytes ++ [0xff, 0xff] ++ [0xff] ++ [0xff])
      entryPoints.length with
  | .error e => .error e
  | .ok h => buildHeaderGo h entryPoints

/-- `Compiler.resolve_entry_addresses`: write each entry label's laid-out
offset into the header starting at byte 11. -/
def resolveEntryAddresses (offsets : List (Nat × Nat)) : List Nat → List Nat → Nat →
    Except Err (List Nat)
  | header, [], _ => .ok header
  | header, ep :: rest, pos =>
    match dictGetNat offsets ep with
    | .error e => .error e
    | .ok v =>
      match pySetByte header (pos : Int) v with
      | .error e => .error e
      | .ok h2 => resolveEntryAddresses offsets h2 rest (pos + 1)

/-- `Compiler.resolve_jump_addresses`: walk the code segment; at every
long-form jump replace the operand byte (a label index) with that
label's offset; a value not fitting in a byte raises `ValueError` from
the bytearray assignment. -/
def rjaGo (offsets : List (Nat × Nat)) : Nat → List Nat → Nat → Except Err (List Nat)
  | 0, _, _ => .error .outOfFuel
  | fuel + 1, code, i =>
    if i < code.length then
      let b := code.getD i 0
      if Nat.land b 0x80 ≠ 0 then rjaGo offsets fuel code (i + 2)
      else if b ∈ jumpBytes then
        match code.get? (i + 1) with
        | none => .error .indexErr
        | some tmp =>
          match dictGetNat offsets tmp with
          | .error e => .error e
          | .ok off =>
            match pySetByte code ((i + 1 : Nat) : Int) off with
            | .error e => .error e
            | .ok code2 => rjaGo offsets fuel code2 (i + 1 + 1)
      else rjaGo offsets fuel code (i + 1)
    else .ok code

/-- `Compiler.build_footer`: 3-byte `(addrHi, addrLo, value)` records in
insertion order (all three already fit in a byte: the address bytes are
masked and the values are digits). -/
def buildFooter (memAddrs : List (Int × Nat)) : List Nat :=
  memAddrs.foldl (fun acc p =>
    acc ++ [(Int.land (Int.fdiv p.1 256) 0xff).toNat, (Int.land p.1 0xff).toNat, p.2]) []

/-- Everything `Compiler.compile` builds before the final header fixups
and back-patching. -/
structure PreImage where
  loaded : Loaded
  labels : List Label
  entryPoints : List Nat
  paths : List (List Nat)
  header : List Nat
  code : List Nat
  offsets : List (Nat × Nat)
deriving DecidableEq, Repr

/-- The front of `Compiler.compile`: lex/load (done by the caller in the
source, folded in here), label enumeration, path parsing, header
skeleton, coalescing, and the reachability layout walk. -/
def compileFront (fuel : Nat) (source : String) : Except Err PreImage :=
  match loadString source with
  | .error e => .error e
  | .ok L =>
    match findPathHeads L.grid with
    | .error e => .error e
    | .ok (labels0, entryPoints) =>
      match parsePaths L.grid L.dimX fuel labels0 with
      | .error e => .error e
      | .ok (labels, paths0) =>
        match buildHeader entryPoints with
        | .error e => .error e
        | .ok header =>
          match coalesceAll labels fuel paths0 with
          | .error e => .error e
          | .ok paths =>
            match layoutGo paths fuel entryPoints.reverse [] [] [] header.length with
            | .error e => .error e
            | .ok (code, offsets) => .ok ⟨L, labels, entryPoints, paths, header, code, offsets⟩

/-- The back of `Compiler.compile`: fill in memory length (big-endian,
masked), memory stride (unmasked bytearray write), data-segment offset
(masked), back-patch entry offsets and jump operands, then concatenate
`header ++ code ++ footer`. -/
def compileBack (fuel : Nat) (p : PreImage) : Except Err (List Nat) :=
  let dataOffset := p.header.length + p.code.length
  let memLength : Int := p.loaded.dimX * p.loaded.dimY
  (pySetByte p.header 6 (Int.land (Int.fdiv memLength 256) 0xff).toNat).bind fun h1 =>
    (pySetByte h1 7 (Int.land memLength 0xff).toNat).bind fun h2 =>
      (pySetByteInt h2 8 p.loaded.dimX).bind fun h3 =>
        (pySetByte h3 9 (dataOffset % 256)).bind fun h4 =>
          (resolveEntryAddresses p.offsets h4 p.entryPoints 11).bind fun h5 =>
            (rjaGo p.offsets fuel p.code 0).bind fun code =>
              .ok (h5 ++ code ++ buildFooter p.loaded.memAddrs)

/-- `Compiler.compile` applied to a source string (the harness calls
`load_string` first; `compile` then runs the phases in order). -/
def compile (fuel : Nat) (source : String) : Except Err (List Nat) :=
  match compileFront fuel source with
  | .error e => .error e
  | .ok p => compileBack fuel p

/-- `Stack.pop` (Python `list.pop` raises on an empty list).  The stack
is modelled head-first: the list head is Python's `stack[-1]`. -/
def stackPop (s : List Int) : Except Err (Int × List Int) :=
  match s with
  | [] => .error .stackUnderflow
  | a :: r => .ok (a, r)

/-- `Stack.math`: unary `~` or a binary operator applied as
`a = pop(); b = pop(); push(b OP a)`.  Python `//` and `%` are floor
division and floor modulus (`Int.fdiv` / `Int.fmod`) and raise
`ZeroDivisionError` on a zero divisor; `&`/`|` are two's-complement
bitwise ops (`Int.land` / `Int.lor`); `~v` is `-v - 1`. -/
def stackMath (op : Nat) (s : List Int) : Except Err (List Int) :=
  if op = STACK_NOT then
    match stackPop s with
    | .error e => .error e
    | .ok (v, s1) => .ok ((-v - 1) :: s1)
  else
    match stackPop s with
    | .error e => .error e
    | .ok (a, s1) =>
      match stackPop s1 with
      | .error e => .error e
      | .ok (b, s2) =>
        if op = STACK_SUB then .ok ((b - a) :: s2)
        else if op = STACK_ADD then .ok ((b + a) :: s2)
        else if op = STACK_MUL then .ok ((b * a) :: s2)
        else if op = STACK_DIV then
          if a = 0 then .error .divZero else .ok (Int.fdiv b a :: s2)
        else if op = STACK_MOD then
          if a = 0 then .error .divZero else .ok (Int.fmod b a :: s2)
        else if op = STACK_AND then .ok (Int.land b a :: s2)
        else if op = STACK_OR then .ok (Int.lor b a :: s2)
        else .error .unhandledStackOp

/-- `Stack.op`: POP / SWAP / DUP handled directly (with Python's
indexing errors on too-short stacks), everything else delegated to
`Stack.math`. -/
def stackOperate (op : Nat) (s : List Int) : Except Err (List Int) :=
  if op = STACK_POP then
    match stackPop s with
    | .error e => .error e
    | .ok (_, s1) => .ok s1
  else if op = STACK_SWAP then
    match s with
    | a :: b :: r => .ok (b :: a :: r)
    | _ => .error .stackUnderflow
  else if op = STACK_DUP then
    match s with
    | a :: r => .ok (a :: a :: r)
    | [] => .error .stackUnderflow
  else stackMath op s

/-- `Process`: id, stopped flag, program counter and operand stack. -/
structure Proc where
  pid : Nat
  stopped : Bool
  pc : Int
  stack : List Int
deriving DecidableEq, Repr

/-- `VirtualMachine` state. -/
structure VM where
  bytecode : List Nat
  memory : List Nat
  memStride : Nat
  processes : List Proc
  ticks : Nat
deriving DecidableEq, Repr

/-- The 8-iteration loop of `VirtualMachine._load_byte`: read one bit
per cell at `(x, y)`, stepping by `(dx, dy)`, MSB first (`i` counts the
completed iterations). -/
def loadByteLoop (stride : Nat) (memory : List Nat) :
    Nat → Nat → Int → Int → Int → Int → Nat → Except Err Nat
  | 0, _, _, _, _, _, value => .ok value
  | k + 1, i, x, y, dx, dy, value =>
    let offset : Int := x + y * (stride : Int)
    match pyGet memory offset with
    | .error e => .error e
    | .ok bit =>
      loadByteLoop stride memory k (i + 1) (x + dx) (y + dy) dx dy
        (Nat.lor value (Nat.shiftLeft bit (7 - i)))

/-- `VirtualMachine._load_byte`: pop `dy, dx, y, x`, read 8 bit-cells,
push the assembled value. -/
def loadByte (stride : Nat) (memory : List Nat) (s : List Int) :
    Except Err (List Int) :=
  match stackPop s with
  | .error e => .error e
  | .ok (dy, s1) =>
    match stackPop s1 with
    | .error e => .error e
    | .ok (dx, s2) =>
      match stackPop s2 with
      | .error e => .error e
      | .ok (y, s3) =>
        match stackPop s3 with
        | .error e => .error e
        | .ok (x, s4) =>
          match loadByteLoop stride memory 8 0 x y dx dy 0 with
          | .error e => .error e
          | .ok value => .ok ((value : Int) :: s4)

/-- The 8-iteration loop of `VirtualMachine._store_byte`: write the bits
of `value` MSB first into consecutive cells. -/
def storeByteLoop (stride : Nat) :
    Nat → Nat → Int → Int → Int → Int → Int → List Nat → Except Err (List Nat)
  | 0, _, _, _, _, _, _, memory => .ok memory
  | k + 1, i, x, y, dx, dy, value, memory =>
    let offset : Int := x + y * (stride : Int)
    let bit := (Int.land (Int.fdiv value ((2 : Int) ^ (7 - i))) 0x1).toNat
    match pySetByte memory offset bit with
    | .error e => .error e
    | .ok mem2 => storeByteLoop stride k (i + 1) (x + dx) (y + dy) dx dy value mem2

/-- `VirtualMachine._store_byte`: pop `dy, dx, y, x, value` and write 8
bit-cells. -/
def storeByte (stride : Nat) (memory : List Nat) (s : List Int) :
    Except Err (List Nat × List Int) :=
  match stackPop s with
  | .error e => .error e
  | .ok (dy, s1) =>
    match stackPop s1 with
    | .error e => .error e
    | .ok (dx, s2) =>
      match stackPop s2 with
      | .error e => .error e
      | .ok (y, s3) =>
        match stackPop s3 with
        | .error e => .error e
        | .ok (x, s4) =>
          match stackPop s4 with
          | .error e => .error e
          | .ok (value, s5) =>
            match storeByteLoop stride 8 0 x y dx dy value memory with
            | .error e => .error e
            | .ok mem2 => .ok (mem2, s5)

/-- One instruction of the dispatch loop body for the process with id
`pid` (process ids equal their index in `processes`).  Returns the
updated machine and whether this process executed `HALT`.  The tail
`proc.pc += 1` of the Python loop runs in every case. -/
def vmStep (vm : VM) (pid : Nat) : Except Err (VM × Bool) :=
  match vm.processes.get? pid with
  | none => .error .indexErr
  | some proc =>
    let vm := { vm with ticks := vm.ticks + 1 }
    match pyGet vm.bytecode proc.pc with
    | .error e => .error e
    | .ok b =>
      let op := Nat.land (Nat.shiftRight b 4) 0xf
      let arg := Nat.land b 0xf
      if Nat.land op 0x8 ≠ 0 then
        let high7 := Nat.land b 0x7f
        match pyGet vm.bytecode (proc.pc + 1) with
        | .error e => .error e
        | .ok low8 =>
          let addr16 := Nat.lor (Nat.shiftLeft high7 8) low8
          match pyGet vm.memory (addr16 : Int) with
          | .error e => .error e
          | .ok v =>
            let proc2 := { proc with stack := (v : Int) :: proc.stack, pc := proc.pc + 1 + 1 }
            .ok ({ vm with processes := vm.processes.set pid proc2 }, false)
      else if op = OP_HALT then
        let proc2 := { proc with stopped := true, pc := proc.pc + 1 }
        .ok ({ vm with processes := vm.processes.set pid proc2 }, true)
      else if op = OP_LOAD then
        match loadByte vm.memStride vm.memory proc.stack with
        | .error e => .error e
        | .ok s2 =>
          let proc2 := { proc with stack := s2, pc := proc.pc + 1 }
          .ok ({ vm with processes := vm.processes.set pid proc2 }, false)
      else if op = OP_STORE then
        match storeByte vm.memStride vm.memory proc.stack with
        | .error e => .error e
        | .ok (mem2, s2) =>
          let proc2 := { proc with stack := s2, pc := proc.pc + 1 }
          .ok ({ vm with memory := mem2, processes := vm.processes.set pid proc2 }, false)
      else if op = OP_STACK then
        match stackOperate arg proc.stack with
        | .error e => .error e
        | .ok s2 =>
          let proc2 := { proc with stack := s2, pc := proc.pc + 1 }
          .ok ({ vm with processes := vm.processes.set pid proc2 }, false)
      else if op = OP_JZ then
        let fetch : Except Err (Int × Int) :=
          if arg ≠ 0xf then .ok ((arg : Int), proc.pc)
          else
            match pyGet vm.bytecode (proc.pc + 1) with
            | .error e => .error e
            | .ok t => .ok ((t : Int), proc.pc + 1)
        match fetch with
        | .error e => .error e
        | .ok (target, pc1) =>
          match stackPop proc.stack with
          | .error e => .error e
          | .ok (v, s2) =>
            let pc2 := if v = 0 then target - 1 else pc1
            let proc2 := { proc with stack := s2, pc := pc2 + 1 }
            .ok ({ vm with processes := vm.processes.set pid proc2 }, false)
      else if op = OP_JMP then
        let fetch : Except Err Int :=
          if arg ≠ 0xf then .ok (arg : Int)
          else
            match pyGet vm.bytecode (proc.pc + 1) with
            | .error e => .error e
            | .ok t => .ok (t : Int)
        match fetch with
        | .error e => .error e
        | .ok target =>
          let proc2 := { proc with pc := target - 1 + 1 }
          .ok ({ vm with processes := vm.processes.set pid proc2 }, false)
      else .error .unknownOpcode

/-- One `for proc in running_processes` sweep, with CPython's
index-based iterator semantics: the element at position `k` is
executed, and `running_processes.remove(proc)` on a HALT shifts the
remaining elements left so the next element is skipped in this sweep. -/
def vmSweep : Nat → VM → List Nat → Nat → Except Err (VM × List Nat)
  | 0, _, _, _ => .error .outOfFuel
  | fuel + 1, vm, running, k =>
    if k < running.length then
      let pid := running.getD k 0
      match vmStep vm pid with
      | .error e => .error e
      | .ok (vm2, halted) =>
        if halted then vmSweep fuel vm2 (running.eraseIdx k) (k + 1)
        else vmSweep fuel vm2 running (k + 1)
    else .ok (vm, running)

/-- The `while running_processes` loop of `VirtualMachine.run`. -/
def vmRunGo : Nat → VM → List Nat → Except Err VM
  | 0, _, _ => .error .outOfFuel
  | fuel + 1, vm, running =>
    match running with
    | [] => .ok vm
    | _ =>
      match vmSweep fuel vm running 0 with
      | .error e => .error e
      | .ok (vm2, running2) => vmRunGo fuel vm2 running2

/-- `VirtualMachine.run`: the live list starts as a copy of
`processes` (ids in order); run sweeps until it is empty. -/
def vmRun (fuel : Nat) (vm : VM) : Except Err VM :=
  vmRunGo fuel vm (List.range vm.processes.length)

/-- The data-segment walk of `VirtualMachine._init_mem`:
`mem[(b[i] << 8) | b[i+1]] = b[i+2]` for each 3-byte record from
`data_offset` to the end of the image. -/
def initMemVMGo (bytecode : List Nat) : Nat → Nat → List Nat → Except Err (List Nat)
  | 0, _, _ => .error .outOfFuel
  | fuel + 1, i, memory =>
    if i < bytecode.length then
      match pyGet bytecode (i : Int) with
      | .error e => .error e
      | .ok hi =>
        match pyGet bytecode ((i + 1 : Nat) : Int) with
        | .error e => .error e
        | .ok lo =>
          match pyGet bytecode ((i + 2 : Nat) : Int) with
          | .error e => .error e
          | .ok v =>
            match pySetByte memory ((Nat.lor (Nat.shiftLeft hi 8) lo : Nat) : Int) v with
            | .error e => .error e
            | .ok mem2 => initMemVMGo bytecode fuel (i + 3) mem2
    else .ok memory

/-- `VirtualMachine._init_mem`: allocate `mem_length` zero bytes, then
apply the data-segment initializers. -/
def initMemVM (bytecode : List Nat) (memLength dataOffset : Nat) :
    Except Err (List Nat) :=
  initMemVMGo bytecode (bytecode.length + 3) dataOffset (List.replicate memLength 0)

/-- The process-spawning loop of `VirtualMachine.load`. -/
def spawnProcs (bytecode : List Nat) : Nat → Nat → Nat → List Proc →
    Except Err (List Proc)
  | 0, _, _, procs => .ok procs
  | k + 1, i, offset, procs =>
    match pyGet bytecode (offset : Int) with
    | .error e => .error e
    | .ok pc => spawnProcs bytecode k (i + 1) (offset + 1) (procs ++ [⟨i, false, (pc : Int), []⟩])

/-- `VirtualMachine.load`: validate magic and version, read the header
fields — note the source computes
`mem_length = (b[6] << 8) | (b[7] << 8)`, shifting BOTH bytes left —
then initialize memory and spawn one process per entry point. -/
def vmLoad (bytecode : List Nat) : Except Err VM :=
  if bytecode.take 4 ≠ magicBytes then .error .badMagic
  else if (bytecode.drop 4).take 2 ≠ versionBytes then .error .badVersion
  else
    match pyGet bytecode 6 with
    | .error e => .error e
    | .ok b6 =>
      match pyGet bytecode 7 with
      | .error e => .error e
      | .ok b7 =>
        let memLength := Nat.lor (Nat.shiftLeft b6 8) (Nat.shiftLeft b7 8)
        match pyGet bytecode 8 with
        | .error e => .error e
        | .ok stride =>
          match pyGet bytecode 9 with
          | .error e => .error e
          | .ok dataOffset =>
            match initMemVM bytecode memLength dataOffset with
            | .error e => .error e
            | .ok memory =>
              match pyGet bytecode 10 with
              | .error e => .error e
              | .ok epCount =>
                match spawnProcs bytecode epCount 0 11 [] with
                | .error e => .error e
                | .ok procs => .ok ⟨bytecode, memory, stride, procs, 0⟩

/-! ## Helper lemmas -/

/-- The image `Compiler.compile` produces for the grid `"E 3@"`:
header (magic, version, memLength `00 04` big-endian, stride 4, data
offset 15, one entry at offset 12), code `PUSH 2; HALT`, and the single
data record `addr 2 ↦ 3`. -/
def imageE3 : List Nat := [74, 69, 68, 63, 1, 0, 0, 4, 4, 15, 1, 12, 128, 2, 0, 0, 2, 3]

/-- A hand-assembled image with two entry points whose processes both
start on a `HALT` instruction (code bytes `00 00` at offsets 13, 14). -/
def imageTwoHalts : List Nat := [74, 69, 68, 63, 1, 0, 0, 0, 1, 15, 2, 13, 14, 0, 0]

/-- Number of labels one token contributes during enumeration: one for
START and TURN, two for COND. -/
def labelWeight (t : Token) : Nat :=
  match t.type with
  | .T_START => 1
  | .T_TURN => 1
  | .T_COND => 2
  | _ => 0

/-- Total label weight of a token row. -/
def sumW (l : List Token) : Nat := (l.map labelWeight).sum

/-- Total number of labels `find_path_heads` would create for a grid. -/
def labelCount (grid : List (List Token)) : Nat := (grid.map sumW).sum

/-- A grid token is direction-valid when START/TURN tokens carry one of
the eight direction characters (always true for lexed grids). -/
def dirOk (t : Token) : Prop :=
  (t.type = .T_START ∨ t.type = .T_TURN) → (dirVec t.value).isSome = true

/-- The adjacent pair of labels a COND cell at `(x, y)` contributes:
first the `<` (JMP fall-through) label with refcount 0, then the `>`
(JZ zero-branch) label with refcount 1. -/
def condPair (labels : List Label) (x y : Nat) : Prop :=
  ∃ i, labels.get? i = some ⟨((x : Int), (y : Int)), (-1, 0), 0⟩ ∧
    labels.get? (i + 1) = some ⟨((x : Int), (y : Int)), (1, 0), 1⟩

/-- The label indices sitting in the operand byte of every long-form
jump of a code segment, collected with exactly the scan
`resolve_jump_addresses` performs (PUSH skips two bytes, a jump
consumes its operand byte). -/
def collectJumpOperands : Nat → List Nat → Nat → Option (List Nat)
  | 0, _, _ => none
  | fuel + 1, code, i =>
    if i < code.length then
      let b := code.getD i 0
      if Nat.land b 0x80 ≠ 0 then collectJumpOperands fuel code (i + 2)
      else if b ∈ jumpBytes then
        match code.get? (i + 1) with
        | none => none
        | some t =>
          match collectJumpOperands fuel code (i + 1 + 1) with
          | none => none
          | some rest => some (t :: rest)
      else collectJumpOperands fuel code (i + 1)
    else some []

/-- The token grid of the source `"v\n^"`: a 1×2 column with two turn
tokens forming a jump cycle reachable from no entry point. -/
def gridVH : List (List Token) := [[⟨.T_TURN, 'v'⟩], [⟨.T_TURN, '^'⟩]]

/-- Labels of `gridVH` as enumerated (before path parsing). -/
def labels0VH : List Label := [⟨(0, 0), (0, 1), 0⟩, ⟨(0, 1), (0, -1), 0⟩]

/-- Labels of `gridVH` after path parsing: each turn's block jumps to
the other, so both refcounts are 1 (`< 2`, hence coalescable). -/
def labelsVH : List Label := [⟨(0, 0), (0, 1), 1⟩, ⟨(0, 1), (0, -1), 1⟩]

/-- The two parsed blocks of `gridVH`: `JMP →1` and `JMP →0`. -/
def pathsVH : List (List Nat) := [[79, 1], [79, 0]]

/-- A single row of 255 `>` turn tokens: exactly 255 labels. -/
def gridTurns255 : List (List Token) := [List.replicate 255 ⟨.T_TURN, '>'⟩]

/-- A placeholder `PreImage` (only the `getD` default below). -/
def emptyPre : PreImage := ⟨⟨0, 0, [], []⟩, [], [], [], [], [], []⟩

/-- A one-row source whose long straight run makes the layout place a
referenced label at offset 256. -/
def c10src : String := ⟨'E' :: (List.replicate 120 '+' ++ ['_', '@'])⟩

/-- The `PreImage` the compiler front end builds for `c10src`. -/
def c10pre : PreImage := ((compileFront 2000 c10src).toOption).getD emptyPre

/-- A block scan is clean when `maximally_extend_path`'s walk from
position `i` reaches the end of the block without meeting a long-form
jump whose target label has refcount below 2 (and without running out
of bytes, labels, or fuel). -/
def scanClean (labels : List Label) : Nat → List Nat → Nat → Bool
  | 0, _, _ => false
  | fuel + 1, path, i =>
    if i < path.length then
      let b := path.getD i 0
      if Nat.land b 0x80 ≠ 0 then scanClean labels fuel path (i + 2)
      else if b ∈ jumpBytes then
        match path.get? (i + 1) with
        | none => false
        | some target =>
          match labels.get? target with
          | none => false
          | some lab =>
            if lab.refcount < 2 then false
            else scanClean labels fuel path (i + 1)
      else scanClean labels fuel path (i + 1)
    else true

/-- Every label resolves through `get_label_index` to a block index
inside the paths table. -/
def labelIndexOk (labels : List Label) (nblocks : Nat) : Bool :=
  labels.all fun lab =>
    match getLabelIndex labels lab.location lab.direction with
    | .ok idx => idx < nblocks
    | .error _ => false

/-- Three singly-referenced labels at distinct positions on one row. -/
def labelsC8 : List Label := [⟨(0, 0), (1, 0), 1⟩, ⟨(1, 0), (1, 0), 1⟩, ⟨(2, 0), (1, 0), 1⟩]

/-- Blocks for `labelsC8`: block 0 jumps to label 1 (an empty block)
and then to label 2 (a lone `HALT`). -/
def pathsC8 : List (List Nat) := [[79, 1, 79, 2], [], [0]]

/-- Floor-modulus bounds for a negative divisor: the remainder has the
divisor's sign, `a < b.fmod a ≤ 0`. -/
theorem fmod_bounds_of_neg (b a : Int) (ha : a < 0) :
    a < Int.fmod b a ∧ Int.fmod b a ≤ 0 := by
  match b, a with
  | _, Int.ofNat n =>
    rw [Int.ofNat_eq_coe] at ha
    omega
  | Int.ofNat 0, Int.negSucc n =>
    have h0 : Int.fmod (Int.ofNat 0) (Int.negSucc n) = 0 := rfl
    rw [h0, Int.negSucc_eq]
    omega
  | Int.ofNat (m + 1), Int.negSucc n =>
    have h0 : Int.fmod (Int.ofNat (m + 1)) (Int.negSucc n) = Int.subNatNat (m % n.succ) n := rfl
    have hlt : m % n.succ < n.succ := Nat.mod_lt _ (Nat.succ_pos n)
    rw [h0, Int.subNatNat_eq_coe, Int.negSucc_eq]
    omega
  | Int.negSucc m, Int.negSucc n =>
    have h0 : Int.fmod (Int.negSucc m) (Int.negSucc n) = -(Int.ofNat (m.succ % n.succ)) := rfl
    have hlt : m.succ % n.succ < n.succ := Nat.mod_lt _ (Nat.succ_pos n)
    rw [h0, Int.negSucc_eq]
    simp only [Int.ofNat_eq_coe]
    omega

/-! ## Claim theorems -/

/-- **C1** (code_bug): the claim says `VirtualMachine.load` reads
`memLength` as the big-endian 16-bit value `256·b6 + b7` and allocates
exactly that many bytes.  The source shifts BOTH header bytes left by 8
(`mem_length |= (b7 & 0xff) << 8`), so for the image compiled from
`"E 3@"` — whose header stores memLength 4 as `b6 = 0, b7 = 4` — the
loader allocates `(0 ||| 4) <<< 8 = 1024` bytes, not `4`. -/
theorem c1_memlength_misread :
    compile 1000 "E 3@" = .ok imageE3 ∧
    256 * imageE3.getD 6 0 + imageE3.getD 7 0 = 4 ∧
    (vmLoad imageE3).map (fun vm => vm.memory.length) = .ok 1024 := by
  refine ⟨by rfl, by rfl, by rfl⟩

/-- **C4** (code_bug): the claim says every process live at the start of
a dispatch-loop iteration executes exactly one instruction during it.
In the source, `running_processes.remove(proc)` inside
`for proc in running_processes` shifts the list under the iterator:
with both processes live (and both sitting on `HALT`), the first sweep
executes only ONE instruction (`ticks = 1`), halting process 0 while
process 1 is skipped entirely (still unstopped, pc unchanged); a second
sweep is needed before process 1 runs. -/
theorem c4_halt_skips_next_process :
    (vmLoad imageTwoHalts).map
        (fun vm => vm.processes.map (fun p => (p.pid, p.stopped, p.pc))) =
      .ok [(0, false, 13), (1, false, 14)] ∧
    ((vmLoad imageTwoHalts).bind
        (fun vm => vmSweep 100 vm (List.range vm.processes.length) 0)).map
        (fun r => (r.1.ticks, r.1.processes.map (fun p => (p.pid, p.stopped, p.pc)), r.2)) =
      .ok (1, [(0, true, 14), (1, false, 14)], [1]) ∧
    ((vmLoad imageTwoHalts).bind (vmRun 100)).map
        (fun vm => (vm.ticks, vm.processes.map (fun p => (p.pid, p.stopped)))) =
      .ok (2, [(0, true), (1, true)]) := by
  refine ⟨by rfl, by rfl, by rfl⟩

/-- **C5** (confirmed): compiling the grid `"E 3@"` records the memory
initializer `addr 2 ↦ 3`, the single entry path (label 0) is the
two-byte `PUSH` of address 2 followed by `HALT`, and loading and running
the image ends with exactly one process, stopped, with stack top 3. -/
theorem c5_push_then_halt :
    (loadString "E 3@").map (fun L => L.memAddrs) = .ok [(2, 3)] ∧
    (compileFront 1000 "E 3@").map (fun p => (p.entryPoints, p.paths.getD 0 [])) =
      .ok ([0], [128, 2, 0]) ∧
    (((compile 1000 "E 3@").bind vmLoad).bind (vmRun 1000)).map (fun vm => vm.processes) =
      .ok [⟨0, true, 15, [3]⟩] := by
  refine ⟨by rfl, by rfl, by rfl⟩

/-- **C9** (confirmed): every binary stack operation pops `a` (top) then
`b` (below) and pushes `b OP a`, with the deeper element as the left
operand, and `DIV`/`MOD` use floor semantics: the quotient is the floor
of `b / a` — equivalently `b = a·q + r` with the remainder `r` sharing
the divisor's sign (`0 ≤ r < a` for `a > 0`, `a < r ≤ 0` for `a < 0`). -/
theorem c9_binary_stack_ops (a b : Int) (rest : List Int) (ha : a ≠ 0) :
    stackMath STACK_SUB (a :: b :: rest) = .ok ((b - a) :: rest) ∧
    stackMath STACK_ADD (a :: b :: rest) = .ok ((b + a) :: rest) ∧
    stackMath STACK_MUL (a :: b :: rest) = .ok ((b * a) :: rest) ∧
    stackMath STACK_AND (a :: b :: rest) = .ok (Int.land b a :: rest) ∧
    stackMath STACK_OR (a :: b :: rest) = .ok (Int.lor b a :: rest) ∧
    stackMath STACK_DIV (a :: b :: rest) = .ok (Int.fdiv b a :: rest) ∧
    stackMath STACK_MOD (a :: b :: rest) = .ok (Int.fmod b a :: rest) ∧
    b = a * Int.fdiv b a + Int.fmod b a ∧
    (0 < a → 0 ≤ Int.fmod b a ∧ Int.fmod b a < a) ∧
    (a < 0 → a < Int.fmod b a ∧ Int.fmod b a ≤ 0) := by
  refine ⟨rfl, rfl, rfl, rfl, rfl, ?_, ?_, ?_, ?_, ?_⟩
  · simp only [stackMath, stackPop]
    norm_num [STACK_DIV, STACK_NOT, STACK_SUB, STACK_ADD, STACK_MUL, ha]
  · simp only [stackMath, stackPop]
    norm_num [STACK_MOD, STACK_NOT, STACK_SUB, STACK_ADD, STACK_MUL, STACK_DIV, ha]
  · have := Int.fdiv_add_fmod b a
    omega
  · intro hpos
    exact ⟨Int.fmod_nonneg' b hpos, Int.fmod_lt_of_pos b hpos⟩
  · intro hneg
    exact fmod_bounds_of_neg b a hneg

/-- Witness for C9 at a concrete input: `a = -3`, `b = 7`,
`rest = [11]`; in particular `7 // -3 = -3` and `7 % -3 = -2` (floor
semantics). -/
theorem c9_binary_stack_ops_witness :
    stackMath STACK_DIV ((-3 : Int) :: 7 :: [11]) = .ok ((-3) :: [11]) ∧
    stackMath STACK_MOD ((-3 : Int) :: 7 :: [11]) = .ok ((-2) :: [11]) ∧
    stackMath STACK_SUB ((-3 : Int) :: 7 :: [11]) = .ok (10 :: [11]) := by
  have h := c9_binary_stack_ops (-3) 7 [11] (by decide)
  refine ⟨?_, ?_, ?_⟩
  · rw [h.2.2.2.2.2.1]; rfl
  · rw [h.2.2.2.2.2.2.1]; rfl
  · rw [h.1]; rfl

/-- Every token a successful lex produces with kind DIGIT carries a
digit character. -/
theorem lexChar_digit {c : Char} {t : Token} (h : lexChar c = .ok t) :
    t.type = .T_DIGIT → '0' ≤ t.value ∧ t.value ≤ '9' := by
  intro ht
  unfold lexChar at h
  by_cases h1 : c = ' '
  · rw [if_pos h1] at h; cases h; exact absurd ht (by simp)
  rw [if_neg h1] at h
  by_cases h2 : c = ';'
  · rw [if_pos h2] at h; cases h; exact absurd ht (by simp)
  rw [if_neg h2] at h
  by_cases h3 : c = '@'
  · rw [if_pos h3] at h; cases h; exact absurd ht (by simp)
  rw [if_neg h3] at h
  by_cases h4 : c = 'N' ∨ c = 'S' ∨ c = 'E' ∨ c = 'W'
  · rw [if_pos h4] at h; cases h; exact absurd ht (by simp)
  rw [if_neg h4] at h
  by_cases h5 : c = '<' ∨ c = '^' ∨ c = '>' ∨ c = 'v'
  · rw [if_pos h5] at h; cases h; exact absurd ht (by simp)
  rw [if_neg h5] at h
  by_cases h6 : c = '-' ∨ c = '+' ∨ c = '*' ∨ c = '/' ∨ c = '%' ∨ c = '&' ∨
      c = '|' ∨ c = '~' ∨ c = '!' ∨ c = ':' ∨ c = '$'
  · rw [if_pos h6] at h; cases h; exact absurd ht (by simp)
  rw [if_neg h6] at h
  by_cases h7 : c = '_'
  · rw [if_pos h7] at h; cases h; exact absurd ht (by simp)
  rw [if_neg h7] at h
  by_cases h8 : '0' ≤ c ∧ c ≤ '9'
  · rw [if_pos h8] at h; cases h; exact h8
  rw [if_neg h8] at h
  by_cases h9 : c = '?'
  · rw [if_pos h9] at h; cases h; exact absurd ht (by simp)
  rw [if_neg h9] at h
  by_cases h10 : c = '#'
  · rw [if_pos h10] at h; cases h; exact absurd ht (by simp)
  rw [if_neg h10] at h
  exact Except.noConfusion h

/-- A row's digit tokens all carry digit characters. -/
theorem lexRow_digits : ∀ {r : List Char} {row : List Token}, lexRow r = .ok row →
    ∀ t ∈ row, t.type = .T_DIGIT → '0' ≤ t.value ∧ t.value ≤ '9' := by
  intro r
  induction r with
  | nil => intro row h t ht; cases h; cases ht
  | cons c cs ih =>
    intro row h t ht
    unfold lexRow at h
    cases hc : lexChar c with
    | error e => rw [hc] at h; cases h
    | ok tc =>
      rw [hc] at h
      by_cases hty : tc.type = .T_COMMENT
      · simp only [hty, if_pos rfl] at h
        cases h
        cases ht
      · simp only [if_neg hty] at h
        cases hrest : lexRow cs with
        | error e => rw [hrest] at h; cases h
        | ok rest =>
          rw [hrest] at h
          cases h
          rcases List.mem_cons.mp ht with h1 | h1
          · subst h1; exact lexChar_digit hc
          · exact ih hrest t h1

/-- `initMemCells` cannot fail on a row whose digit tokens carry digit
characters. -/
theorem initMemCells_ok (dimX : Int) (y : Nat) :
    ∀ (row : List Token) (x : Nat) (acc : List (Int × Nat)),
      (∀ t ∈ row, t.type = .T_DIGIT → '0' ≤ t.value ∧ t.value ≤ '9') →
      ∃ acc2, initMemCells dimX y x row acc = .ok acc2 := by
  intro row
  induction row with
  | nil => intro x acc _; exact ⟨acc, rfl⟩
  | cons tok rest ih =>
    intro x acc hd
    unfold initMemCells
    by_cases ht : tok.type = .T_DIGIT
    · have hb := hd tok (List.mem_cons_self _ _) ht
      simp only [ht, if_pos rfl, hb, and_self, if_pos]
      exact ih (x + 1) _ (fun t h => hd t (List.mem_cons_of_mem _ h))
    · simp only [if_neg ht]
      exact ih (x + 1) _ (fun t h => hd t (List.mem_cons_of_mem _ h))

/-- `initMemRows` cannot fail when every row's digit tokens carry digit
characters. -/
theorem initMemRows_ok (dimX : Int) :
    ∀ (grid : List (List Token)) (y : Nat) (acc : List (Int × Nat)),
      (∀ row ∈ grid, ∀ t ∈ row, t.type = .T_DIGIT → '0' ≤ t.value ∧ t.value ≤ '9') →
      ∃ acc2, initMemRows dimX y grid acc = .ok acc2 := by
  intro grid
  induction grid with
  | nil => intro y acc _; exact ⟨acc, rfl⟩
  | cons row rest ih =>
    intro y acc hd
    obtain ⟨acc2, h2⟩ := initMemCells_ok dimX y row 0 acc (hd row (List.mem_cons_self _ _))
    unfold initMemRows
    rw [h2]
    exact ih (y + 1) acc2 (fun r hr => hd r (List.mem_cons_of_mem _ hr))

/-- `loadRows` outcome: if every row lexes then the result is `ok` when
every raw row has the declared width, and a `MalformedGridError`
otherwise; and on success every grid row comes from `lexRow`. -/
theorem loadRows_spec (width : Nat) :
    ∀ (rows : List (List Char)) (y : Nat),
      (∀ r ∈ rows, (lexRow r).isOk = true) →
      ((∀ r ∈ rows, r.length = width) ∧
        ∃ g, loadRows width y rows = .ok g ∧
          ∀ row ∈ g, ∃ r ∈ rows, lexRow r = .ok row) ∨
      ((∃ r ∈ rows, r.length ≠ width) ∧
        ∃ y2, loadRows width y rows = .error (.malformedGrid y2)) := by
  intro rows
  induction rows with
  | nil =>
    intro y _
    exact .inl ⟨by simp, [], rfl, by simp⟩
  | cons r rs ih =>
    intro y hlex
    by_cases hr : r.length = width
    · have hlr : (lexRow r).isOk = true := hlex r (List.mem_cons_self _ _)
      cases hlrow : lexRow r with
      | error e => rw [hlrow] at hlr; cases hlr
      | ok row =>
        rcases ih (y + 1) (fun r2 h2 => hlex r2 (List.mem_cons_of_mem _ h2)) with
          ⟨hall, g, hg, hfrom⟩ | ⟨⟨r2, hr2, hne⟩, y2, hy2⟩
        · refine .inl ⟨?_, row :: g, ?_, ?_⟩
          · intro r2 h2
            rcases List.mem_cons.mp h2 with h3 | h3
            · subst h3; exact hr
            · exact hall r2 h3
          · unfold loadRows
            rw [if_neg (by simp [hr]), hlrow, hg]
          · intro row2 h2
            rcases List.mem_cons.mp h2 with h3 | h3
            · exact ⟨r, List.mem_cons_self _ _, h3 ▸ hlrow⟩
            · obtain ⟨r2, hr2, hlr2⟩ := hfrom row2 h3
              exact ⟨r2, List.mem_cons_of_mem _ hr2, hlr2⟩
        · refine .inr ⟨⟨r2, List.mem_cons_of_mem _ hr2, hne⟩, y2, ?_⟩
          unfold loadRows
          rw [if_neg (by simp [hr]), hlrow, hy2]
    · refine .inr ⟨⟨r, List.mem_cons_self _ _, hr⟩, y, ?_⟩
      unfold loadRows
      rw [if_pos hr]

/-- Unfolding equation for `loadStringRows` on a nonempty row list. -/
theorem loadStringRows_cons (r0 : List Char) (rest : List (List Char)) :
    loadStringRows (r0 :: rest) =
      match loadRows r0.length 0 (r0 :: rest) with
      | .error e => .error e
      | .ok grid =>
        match initMem (r0.length : Int) grid with
        | .error e => .error e
        | .ok mem => .ok ⟨(r0.length : Int), ((r0 :: rest).length : Int), grid, mem⟩ := rfl

/-- **C6** (corrected): comment truncation happens at token level only
and does NOT exempt a row from the rectangularity check (the source
compares the raw line length before lexing the row): for sources whose
pre-comment characters all lex, `MalformedGridError` is raised iff some
raw line — comment-terminated or not — differs in length from the
first line. -/
theorem c6_malformed_iff_raw_length_mismatch (src : String)
    (hlex : ∀ r ∈ splitlines src, (lexRow r).isOk = true) :
    (∃ y, loadString src = .error (.malformedGrid y)) ↔
      ∃ r ∈ splitlines src, r.length ≠ ((splitlines src).headD []).length := by
  cases hs : splitlines src with
  | nil =>
    have hload : loadString src = .error .indexErr := by
      unfold loadString
      rw [hs]
      rfl
    rw [hload]
    simp
  | cons r0 rest =>
    rw [hs] at hlex
    rcases loadRows_spec r0.length (r0 :: rest) 0 hlex with
      ⟨hall, g, hg, hfrom⟩ | ⟨⟨r2, hr2, hne⟩, y2, hy2⟩
    · have hgrid : ∀ row ∈ g, ∀ t ∈ row, t.type = .T_DIGIT →
          '0' ≤ t.value ∧ t.value ≤ '9' := by
        intro row hrow
        obtain ⟨r2, _, hlr2⟩ := hfrom row hrow
        exact lexRow_digits hlr2
      have hnomal : ∀ y, loadString src ≠ .error (.malformedGrid y) := by
        intro y
        by_cases hgnil : g = []
        · have hload : loadString src = .error .noGrid := by
            unfold loadString
            rw [hs, loadStringRows_cons, hg, hgnil]
            rfl
          rw [hload]
          intro hcon
          cases hcon
        · obtain ⟨acc2, hmem⟩ := initMemRows_ok (r0.length : Int) g 0 [] hgrid
          have hmem2 : initMem (r0.length : Int) g = .ok acc2 := by
            unfold initMem
            rw [if_neg hgnil]
            exact hmem
          have hload : loadString src =
              .ok ⟨(r0.length : Int), ((r0 :: rest).length : Int), g, acc2⟩ := by
            unfold loadString
            rw [hs, loadStringRows_cons, hg]
            dsimp only
            rw [hmem2]
          rw [hload]
          intro hcon
          cases hcon
      constructor
      · intro ⟨y, hy⟩
        exact absurd hy (hnomal y)
      · intro ⟨r2, hr2, hne⟩
        exact absurd (hall r2 hr2) (by simpa using hne)
    · have hload : loadString src = .error (.malformedGrid y2) := by
        unfold loadString
        rw [hs, loadStringRows_cons, hy2]
      rw [hload]
      constructor
      · intro _
        exact ⟨r2, hr2, by simpa using hne⟩
      · intro _
        exact ⟨y2, rfl⟩

/-- Witness for C6's amended statement: in `"E@\n@@@"` the second raw
line has length 3 ≠ 2, so loading fails with `MalformedGridError`. -/
theorem c6_malformed_iff_raw_length_mismatch_witness :
    ∃ y, loadString "E@\n@@@" = .error (.malformedGrid y) :=
  (c6_malformed_iff_raw_length_mismatch "E@\n@@@" (by decide)).mpr
    ⟨['@', '@', '@'], by decide, by decide⟩

/-- One `find_path_heads` token step: with the label budget check
`len(jump_labels) >= 255` running after the append, the step fails with
`TooManyLabelsError` exactly when the new label count reaches 255. -/
theorem fphTok_spec (labels : List Label) (eps : List Nat) (x y : Nat) (tok : Token)
    (hdir : dirOk tok) :
    (255 ≤ labels.length + labelWeight tok →
      fphTok labels eps x y tok = .error .tooManyLabels) ∧
    (labels.length + labelWeight tok < 255 →
      ∃ labels2 eps2, fphTok labels eps x y tok = .ok (labels2, eps2) ∧
        labels2.length = labels.length + labelWeight tok) := by
  unfold fphTok labelWeight
  cases htt : tok.type
  case T_START =>
    obtain ⟨d, hd⟩ := Option.isSome_iff_exists.mp (hdir (by simp [htt]))
    dsimp only
    simp only [hd]
    constructor
    · intro hge
      rw [if_pos (by simp; omega)]
    · intro hlt
      refine ⟨labels ++ [⟨((x : Int), (y : Int)), d, 1⟩], eps ++ [labels.length], ?_, by simp⟩
      rw [if_neg (by simp; omega)]
  case T_TURN =>
    obtain ⟨d, hd⟩ := Option.isSome_iff_exists.mp (hdir (by simp [htt]))
    dsimp only
    simp only [hd]
    constructor
    · intro hge
      rw [if_pos (by simp; omega)]
    · intro hlt
      refine ⟨labels ++ [⟨((x : Int), (y : Int)), d, 0⟩], eps, ?_, by simp⟩
      rw [if_neg (by simp; omega)]
  case T_COND =>
    dsimp only
    constructor
    · intro hge
      rw [if_pos (by simp; omega)]
    · intro hlt
      refine ⟨labels ++ [⟨((x : Int), (y : Int)), (-1, 0), 0⟩,
        ⟨((x : Int), (y : Int)), (1, 0), 1⟩], eps, ?_, by simp⟩
      rw [if_neg (by simp; omega)]
  all_goals
    dsimp only
    constructor
    · intro hge
      rw [if_pos (by omega)]
    · intro hlt
      refine ⟨labels, eps, ?_, by simp⟩
      rw [if_neg (by omega)]

/-- `find_path_heads` row scan: starting under the 255 budget, the scan
fails with `TooManyLabelsError` exactly when the labels created so far
plus those of the remaining cells reach 255. -/
theorem fphCells_spec (row : List Token) (width y : Nat) (hrow : row.length = width)
    (hdir : ∀ t ∈ row, dirOk t) :
    ∀ (n x : Nat) (labels : List Label) (eps : List Nat), x + n = width →
      labels.length < 255 →
      (255 ≤ labels.length + sumW (row.drop x) →
        fphCells row y x n labels eps = .error .tooManyLabels) ∧
      (labels.length + sumW (row.drop x) < 255 →
        ∃ labels2 eps2, fphCells row y x n labels eps = .ok (labels2, eps2) ∧
          labels2.length = labels.length + sumW (row.drop x)) := by
  intro n
  induction n with
  | zero =>
    intro x labels eps hx hinv
    have hdrop : row.drop x = [] := by
      apply List.drop_eq_nil_of_le
      omega
    rw [hdrop]
    constructor
    · intro hge
      simp [sumW] at hge
      omega
    · intro _
      exact ⟨labels, eps, rfl, by simp [sumW]⟩
  | succ n ih =>
    intro x labels eps hx hinv
    have hxlt : x < row.length := by omega
    have hget : row.get? x = some row[x] := by
      rw [List.get?_eq_getElem?]
      exact List.getElem?_eq_getElem hxlt
    have hdrop : row.drop x = row[x] :: row.drop (x + 1) :=
      List.drop_eq_getElem_cons hxlt
    have hsum : sumW (row.drop x) = labelWeight row[x] + sumW (row.drop (x + 1)) := by
      rw [hdrop]
      simp only [sumW, List.map_cons, List.sum_cons]
    have hdx : dirOk row[x] := hdir _ (List.getElem_mem hxlt)
    have htok := fphTok_spec labels eps x y row[x] hdx
    unfold fphCells
    rw [hget]
    dsimp only
    by_cases hcase : 255 ≤ labels.length + labelWeight row[x]
    · rw [htok.1 hcase]
      constructor
      · intro _
        rfl
      · intro hlt
        omega
    · push_neg at hcase
      obtain ⟨labels2, eps2, hok, hlen⟩ := htok.2 hcase
      rw [hok]
      have hrec := ih (x + 1) labels2 eps2 (by omega) (by omega)
      constructor
      · intro hge
        exact hrec.1 (by omega)
      · intro hlt
        obtain ⟨l3, e3, h3, hl3⟩ := hrec.2 (by omega)
        exact ⟨l3, e3, h3, by omega⟩

/-- `find_path_heads` over all rows: fails with `TooManyLabelsError`
exactly when the accumulated label count reaches 255. -/
theorem fphRows_spec (width : Nat) :
    ∀ (rows : List (List Token)) (y : Nat) (labels : List Label) (eps : List Nat),
      (∀ row ∈ rows, row.length = width) →
      (∀ row ∈ rows, ∀ t ∈ row, dirOk t) →
      labels.length < 255 →
      (255 ≤ labels.length + (rows.map sumW).sum →
        fphRows width y rows labels eps = .error .tooManyLabels) ∧
      (labels.length + (rows.map sumW).sum < 255 →
        ∃ labels2 eps2, fphRows width y rows labels eps = .ok (labels2, eps2) ∧
          labels2.length = labels.length + (rows.map sumW).sum) := by
  intro rows
  induction rows with
  | nil =>
    intro y labels eps _ _ hinv
    constructor
    · intro hge
      simp at hge
      omega
    · intro _
      exact ⟨labels, eps, rfl, by simp⟩
  | cons row rest ih =>
    intro y labels eps hrect hdir hinv
    have hrow := hrect row (List.mem_cons_self _ _)
    have hcells := fphCells_spec row width y hrow
      (hdir row (List.mem_cons_self _ _)) width 0 labels eps (by omega) hinv
    rw [List.drop_zero] at hcells
    unfold fphRows
    by_cases hcase : 255 ≤ labels.length + sumW row
    · rw [hcells.1 hcase]
      constructor
      · intro _
        rfl
      · intro hlt
        simp at hlt
        omega
    · push_neg at hcase
      obtain ⟨labels2, eps2, hok, hlen⟩ := hcells.2 hcase
      rw [hok]
      have hrec := ih (y + 1) labels2 eps2
        (fun r hr => hrect r (List.mem_cons_of_mem _ hr))
        (fun r hr => hdir r (List.mem_cons_of_mem _ hr)) (by omega)
      constructor
      · intro hge
        refine hrec.1 ?_
        simp at hge
        omega
      · intro hlt
        simp at hlt
        obtain ⟨l3, e3, h3, hl3⟩ := hrec.2 (by omega)
        refine ⟨l3, e3, h3, ?_⟩
        simp
        omega

/-- **C7** (corrected): because the source checks
`len(jump_labels) >= 255` after each append, label enumeration fails
with `TooManyLabelsError` if and only if at least 255 labels are
created — a grid producing exactly 255 labels is already rejected,
contrary to the claim's "strictly more than 255". -/
theorem c7_label_budget (grid : List (List Token))
    (hrect : ∀ row ∈ grid, row.length = (grid.headD []).length)
    (hdir : ∀ row ∈ grid, ∀ t ∈ row, dirOk t) :
    (findPathHeads grid = .error .tooManyLabels ↔ 255 ≤ labelCount grid) ∧
    (labelCount grid < 255 → (findPathHeads grid).isOk = true) := by
  have h := fphRows_spec (grid.headD []).length grid 0 [] [] hrect hdir (by simp)
  unfold findPathHeads labelCount
  constructor
  · constructor
    · intro herr
      by_contra hcon
      push_neg at hcon
      obtain ⟨l2, e2, hok, _⟩ := h.2 (by simpa [labelCount] using hcon)
      rw [hok] at herr
      cases herr
    · intro hge
      exact h.1 (by simpa [labelCount] using hge)
  · intro hlt
    obtain ⟨l2, e2, hok, _⟩ := h.2 (by simpa [labelCount] using hlt)
    rw [hok]
    rfl

/-- Witness for C7's amended statement at a 1-cell grid: no labels, so
no `TooManyLabelsError` and enumeration succeeds. -/
theorem c7_label_budget_witness :
    ¬ findPathHeads [[⟨.T_HALT, '@'⟩]] = .error .tooManyLabels ∧
    (findPathHeads [[⟨.T_HALT, '@'⟩]]).isOk = true := by
  have h := c7_label_budget [[⟨.T_HALT, '@'⟩]] (by decide)
    (by
      intro row hrow t ht
      intro hst
      have hr : row = [(⟨.T_HALT, '@'⟩ : Token)] := by simpa using hrow
      subst hr
      have ht2 : t = (⟨.T_HALT, '@'⟩ : Token) := by simpa using ht
      subst ht2
      simp at hst)
  refine ⟨?_, h.2 (by decide)⟩
  intro hcon
  exact absurd ((h.1).mp hcon) (by decide)

/-- `(l₁ ++ l₂).get?` below `l₁.length` reads `l₁`. -/
theorem get?_append_left {α : Type} (l₁ l₂ : List α) (n : Nat) (h : n < l₁.length) :
    (l₁ ++ l₂).get? n = l₁.get? n := by
  rw [List.get?_eq_getElem?, List.get?_eq_getElem?]
  exact List.getElem?_append_left h

/-- `(l₁ ++ l₂).get?` at `l₁.length + n` reads `l₂`. -/
theorem get?_append_off {α : Type} (l₁ l₂ : List α) (n : Nat) :
    (l₁ ++ l₂).get? (l₁.length + n) = l₂.get? n := by
  rw [List.get?_eq_getElem?, List.get?_eq_getElem?]
  rw [List.getElem?_append_right (by omega)]
  congr 1
  omega

/-- Reading the two elements just appended to a list. -/
theorem get?_append_pair {α : Type} (l : List α) (a b : α) :
    (l ++ [a, b]).get? l.length = some a ∧ (l ++ [a, b]).get? (l.length + 1) = some b := by
  constructor
  · have h0 := get?_append_off l [a, b] 0
    rw [Nat.add_zero] at h0
    rw [h0]
    rfl
  · have h1 := get?_append_off l [a, b] 1
    rw [h1]
    rfl

/-- `condPair` persists under appending further labels. -/
theorem condPair_mono (labels d : List Label) (x y : Nat) :
    condPair labels x y → condPair (labels ++ d) x y := by
  rintro ⟨i, h1, h2⟩
  have hlt : i + 1 < labels.length := by
    by_contra hc
    push_neg at hc
    rw [List.get?_eq_none.mpr hc] at h2
    cases h2
  refine ⟨i, ?_, ?_⟩
  · rw [get?_append_left _ _ _ (by omega)]
    exact h1
  · rw [get?_append_left _ _ _ hlt]
    exact h2

/-- A successful `find_path_heads` token step only appends labels, and a
COND token appends exactly its `<`/`>` pair in that order with refcounts
0 and 1. -/
theorem fphTok_ok_shape {labels : List Label} {eps : List Nat} {x y : Nat} {tok : Token}
    {labels2 : List Label} {eps2 : List Nat}
    (h : fphTok labels eps x y tok = .ok (labels2, eps2)) :
    (∃ d, labels2 = labels ++ d) ∧
    (tok.type = .T_COND → labels2 = labels ++
      [⟨((x : Int), (y : Int)), (-1, 0), 0⟩, ⟨((x : Int), (y : Int)), (1, 0), 1⟩]) := by
  unfold fphTok at h
  cases htt : tok.type
  case T_START =>
    rw [htt] at h
    dsimp only at h
    cases hd : dirVec tok.value
    · rw [hd] at h
      cases h
    · rw [hd] at h
      dsimp only at h
      split_ifs at h
      cases h
      exact ⟨⟨_, rfl⟩, fun hc => nomatch hc⟩
  case T_TURN =>
    rw [htt] at h
    dsimp only at h
    cases hd : dirVec tok.value
    · rw [hd] at h
      cases h
    · rw [hd] at h
      dsimp only at h
      split_ifs at h
      cases h
      exact ⟨⟨_, rfl⟩, fun hc => nomatch hc⟩
  case T_COND =>
    rw [htt] at h
    dsimp only at h
    split_ifs at h
    cases h
    exact ⟨⟨_, rfl⟩, fun _ => rfl⟩
  all_goals
    rw [htt] at h
    dsimp only at h
    split_ifs at h
    cases h
    exact ⟨⟨[], (List.append_nil _).symm⟩, fun hc => nomatch hc⟩

/-- Row scan of `find_path_heads`: labels only grow, and after the scan
every COND cell in the scanned range has its `<`/`>` pair present. -/
theorem fphCells_pairs (row : List Token) (y : Nat) :
    ∀ (n x : Nat) (labels : List Label) (eps : List Nat) labels2 eps2,
      fphCells row y x n labels eps = .ok (labels2, eps2) →
      (∃ d, labels2 = labels ++ d) ∧
      ∀ k, x ≤ k → k < x + n → ∀ tok, row.get? k = some tok → tok.type = .T_COND →
        condPair labels2 k y := by
  intro n
  induction n with
  | zero =>
    intro x labels eps labels2 eps2 h
    cases h
    exact ⟨⟨[], (List.append_nil _).symm⟩, fun k h1 h2 => by omega⟩
  | succ n ih =>
    intro x labels eps labels2 eps2 h
    unfold fphCells at h
    cases hget : row.get? x
    · rw [hget] at h
      cases h
    case some tok =>
      rw [hget] at h
      dsimp only at h
      cases htok : fphTok labels eps x y tok
      · rw [htok] at h
        cases h
      case ok pr =>
        rw [htok] at h
        dsimp only at h
        obtain ⟨l1, e1⟩ := pr
        obtain ⟨⟨d1, hrec1⟩, hrec2⟩ := ih (x + 1) l1 e1 labels2 eps2 h
        have hshape := fphTok_ok_shape htok
        obtain ⟨d0, hd0⟩ := hshape.1
        refine ⟨⟨d0 ++ d1, by rw [hrec1, hd0, List.append_assoc]⟩, ?_⟩
        intro k hk1 hk2 tok2 hget2 hc2
        by_cases hkx : k = x
        · subst hkx
          have htokeq : tok2 = tok := by
            rw [hget] at hget2
            cases hget2
            rfl
          subst htokeq
          have hcond := hshape.2 hc2
          rw [hrec1, hcond]
          apply condPair_mono
          exact ⟨labels.length, (get?_append_pair labels _ _).1,
            (get?_append_pair labels _ _).2⟩
        · exact hrec2 k (by omega) (by omega) tok2 hget2 hc2

/-- All rows of `find_path_heads`: after enumeration every COND cell of
the grid (within the scanned width) has its `<`/`>` pair present. -/
theorem fphRows_pairs (width : Nat) :
    ∀ (rows : List (List Token)) (y : Nat) (labels : List Label) (eps : List Nat)
      labels2 eps2,
      fphRows width y rows labels eps = .ok (labels2, eps2) →
      (∃ d, labels2 = labels ++ d) ∧
      ∀ j row, rows.get? j = some row → ∀ k tok, k < width → row.get? k = some tok →
        tok.type = .T_COND → condPair labels2 k (y + j) := by
  intro rows
  induction rows with
  | nil =>
    intro y labels eps labels2 eps2 h
    cases h
    refine ⟨⟨[], (List.append_nil _).symm⟩, ?_⟩
    intro j row hj
    cases hj
  | cons row rest ih =>
    intro y labels eps labels2 eps2 h
    unfold fphRows at h
    cases hcells : fphCells row y 0 width labels eps
    · rw [hcells] at h
      cases h
    case ok pr =>
      rw [hcells] at h
      dsimp only at h
      obtain ⟨l1, e1⟩ := pr
      obtain ⟨⟨d1, hrec1⟩, hrec2⟩ := ih (y + 1) l1 e1 labels2 eps2 h
      obtain ⟨⟨d0, hd0⟩, hpairs⟩ := fphCells_pairs row y width 0 labels eps l1 e1 hcells
      refine ⟨⟨d0 ++ d1, by rw [hrec1, hd0, List.append_assoc]⟩, ?_⟩
      intro j rowj hj k tok hk hget hc
      match j, hj with
      | 0, hj =>
        have hrow : rowj = row := by
          cases hj
          rfl
        subst hrow
        have hpair := hpairs k (by omega) (by omega) tok hget hc
        rw [hrec1]
        have harith : y + 0 = y := by omega
        rw [harith]
        exact condPair_mono l1 d1 k y hpair
      | j + 1, hj =>
        have := hrec2 j rowj hj k tok hk hget hc
        have harith : y + 1 + j = y + (j + 1) := by omega
        rwa [harith] at this

/-- **C2** (corrected, general part): for every rectangular grid that
label enumeration accepts, every COND token at `(x, y)` contributes an
adjacent pair of labels — the non-zero (JMP fall-through) branch with
direction `<` and refcount 0 first, then the zero (JZ) branch with
direction `>` and refcount 1 — exactly the reverse of the refcounts the
claim states. -/
theorem c2_cond_label_pair (grid : List (List Token))
    (labels : List Label) (eps : List Nat)
    (hok : findPathHeads grid = .ok (labels, eps))
    (hrect : ∀ row ∈ grid, row.length = (grid.headD []).length) :
    ∀ y row, grid.get? y = some row → ∀ x tok, row.get? x = some tok →
      tok.type = .T_COND →
      ∃ i, labels.get? i = some ⟨((x : Int), (y : Int)), (-1, 0), 0⟩ ∧
        labels.get? (i + 1) = some ⟨((x : Int), (y : Int)), (1, 0), 1⟩ := by
  intro y row hy x tok hx hc
  have hmem : row ∈ grid := List.get?_mem hy
  have hxw : x < (grid.headD []).length := by
    have h1 : x < row.length := by
      by_contra hcon
      push_neg at hcon
      rw [List.get?_eq_none.mpr hcon] at hx
      cases hx
    rw [hrect row hmem] at h1
    exact h1
  have h := (fphRows_pairs (grid.headD []).length grid 0 [] [] labels eps hok).2
    y row hy x tok hxw hx hc
  rw [Nat.zero_add] at h
  exact h

/-- Witness for C2's amended statement: on the grid of `"E_@"`, the COND
at `(1, 0)` has its `<`-refcount-0 / `>`-refcount-1 pair (at indices
1, 2). -/
theorem c2_cond_label_pair_witness :
    ∃ i, [⟨(0, 0), (1, 0), 1⟩, ⟨(1, 0), (-1, 0), 0⟩, ⟨(1, 0), (1, 0), 1⟩].get? i =
        some (⟨(1, 0), (-1, 0), 0⟩ : Label) ∧
      [⟨(0, 0), (1, 0), 1⟩, ⟨(1, 0), (-1, 0), 0⟩, ⟨(1, 0), (1, 0), 1⟩].get? (i + 1) =
        some (⟨(1, 0), (1, 0), 1⟩ : Label) := by
  have h := c2_cond_label_pair
    [[⟨.T_START, 'E'⟩, ⟨.T_COND, '_'⟩, ⟨.T_HALT, '@'⟩]]
    [⟨(0, 0), (1, 0), 1⟩, ⟨(1, 0), (-1, 0), 0⟩, ⟨(1, 0), (1, 0), 1⟩] [0]
    (by rfl) (by decide) 0 [⟨.T_START, 'E'⟩, ⟨.T_COND, '_'⟩, ⟨.T_HALT, '@'⟩]
    (by rfl) 1 ⟨.T_COND, '_'⟩ (by rfl) (by rfl)
  exact h

/-- **C2** counterexample to the claim as stated, on the grid `"E_@"`:
enumeration gives the `>` (zero-branch) label refcount 1 — not 0 — and
the `<` label refcount 0 — not 1; after jump emission the refcounts are
`[2, 1, 2]`, so the `<` successor of the conditional has refcount 1 —
not `≥ 2` — and the coalescer DOES inline it: the entry block becomes
`JZ →2; <-block (JMP →0)` with the two-byte `JMP →1` spliced away. -/
theorem c2_counterexample_swapped_refcounts :
    (loadString "E_@").map (fun L => findPathHeads L.grid) =
      .ok (.ok ([⟨(0, 0), (1, 0), 1⟩, ⟨(1, 0), (-1, 0), 0⟩, ⟨(1, 0), (1, 0), 1⟩], [0])) ∧
    (compileFront 1000 "E_@").map (fun p => (p.labels.map Label.refcount, p.paths)) =
      .ok ([2, 1, 2], [[95, 2, 79, 0], [79, 0], [0]]) := by
  refine ⟨by rfl, by rfl⟩

/-- Destructuring a successful `Except.bind`. -/
theorem bindOk {α β : Type} {x : Except Err α} {f : α → Except Err β} {b : β}
    (h : x.bind f = .ok b) : ∃ a, x = .ok a ∧ f a = .ok b := by
  cases x with
  | error e => exact Except.noConfusion h
  | ok a => exact ⟨a, rfl, h⟩

/-- A successful bytearray write means the value fits in a byte. -/
theorem pySetByte_ok_lt {l : List Nat} {i : Int} {v : Nat} {l2 : List Nat}
    (h : pySetByte l i v = .ok l2) : v < 256 := by
  unfold pySetByte at h
  by_cases hv : 256 ≤ v
  · rw [if_pos hv] at h
    cases h
  · omega

/-- A successful bytearray write at a `Nat` index is a `List.set` of a
byte-sized value. -/
theorem pySetByte_ok_eq {l : List Nat} {i : Nat} {v : Nat} {l2 : List Nat}
    (h : pySetByte l (i : Int) v = .ok l2) : l2 = l.set i v ∧ v < 256 := by
  unfold pySetByte at h
  by_cases hv : 256 ≤ v
  · rw [if_pos hv] at h
    cases h
  · rw [if_neg hv] at h
    dsimp only at h
    rw [if_neg (by omega : ¬ ((i : Int) < 0))] at h
    by_cases hb : (0 : Int) ≤ (i : Int) ∧ (i : Int) < (l.length : Int)
    · rw [if_pos hb] at h
      cases h
      refine ⟨?_, by omega⟩
      simp
    · rw [if_neg hb] at h
      cases h

/-- `List.get?` unchanged at indices other than the one being set. -/
theorem get?_set_ne {α : Type} (l : List α) (i j : Nat) (v : α) (h : i ≠ j) :
    (l.set i v).get? j = l.get? j := by
  rw [List.get?_eq_getElem?, List.get?_eq_getElem?, List.getElem?_set_ne h]

/-- If `resolve_entry_addresses` succeeds, every entry point's resolved
offset fits in a single byte. -/
theorem resolveEntry_ok_bounds (offsets : List (Nat × Nat)) :
    ∀ (eps : List Nat) (header : List Nat) (pos : Nat) (h2 : List Nat),
      resolveEntryAddresses offsets header eps pos = .ok h2 →
      ∀ ep ∈ eps, ∀ v, dictGetNat offsets ep = .ok v → v < 256 := by
  intro eps
  induction eps with
  | nil => intro header pos h2 _ ep hep; cases hep
  | cons ep0 rest ih =>
    intro header pos h2 h ep hep v hv
    unfold resolveEntryAddresses at h
    cases hd : dictGetNat offsets ep0 with
    | error e => rw [hd] at h; cases h
    | ok v0 =>
      rw [hd] at h
      dsimp only at h
      cases hset : pySetByte header (pos : Int) v0 with
      | error e => rw [hset] at h; cases h
      | ok hdr2 =>
        rw [hset] at h
        dsimp only at h
        rcases List.mem_cons.mp hep with heq | hmem
        · subst heq
          rw [hv] at hd
          cases hd
          exact pySetByte_ok_lt hset
        · exact ih hdr2 (pos + 1) h2 h ep hmem v hv

/-- If some entry point's resolved offset does not fit in a byte,
`resolve_entry_addresses` cannot succeed. -/
theorem resolveEntry_err_of_big (offsets : List (Nat × Nat)) :
    ∀ (eps : List Nat) (header : List Nat) (pos : Nat),
      (∃ ep ∈ eps, ∃ v, dictGetNat offsets ep = .ok v ∧ 256 ≤ v) →
      ∀ h2, resolveEntryAddresses offsets header eps pos ≠ .ok h2 := by
  intro eps
  induction eps with
  | nil =>
    intro header pos hbad h2
    obtain ⟨ep, hep, _⟩ := hbad
    cases hep
  | cons ep0 rest ih =>
    intro header pos hbad h2 h
    unfold resolveEntryAddresses at h
    cases hd : dictGetNat offsets ep0 with
    | error e => rw [hd] at h; cases h
    | ok v0 =>
      rw [hd] at h
      dsimp only at h
      cases hset : pySetByte header (pos : Int) v0 with
      | error e => rw [hset] at h; cases h
      | ok hdr2 =>
        rw [hset] at h
        dsimp only at h
        obtain ⟨ep, hep, v, hv, hbig⟩ := hbad
        rcases List.mem_cons.mp hep with heq | hmem
        · subst heq
          rw [hv] at hd
          cases hd
          exact absurd (pySetByte_ok_lt hset) (by omega)
        · exact ih hdr2 (pos + 1) ⟨ep, hmem, v, hv, hbig⟩ h2 h

/-- `resolve_jump_addresses` against the operand collector: the scans
stay aligned (the back-patch writes only to operand bytes already
passed), a successful resolve means every collected operand's offset
fits in a byte, and an oversized offset makes resolve fail. -/
theorem rjaGo_collect (offsets : List (Nat × Nat)) :
    ∀ (fuel : Nat) (code code2 : List Nat) (i : Nat),
      code2.length = code.length →
      (∀ j, i ≤ j → code2.get? j = code.get? j) →
      (∀ r, rjaGo offsets fuel code2 i = .ok r →
        ∃ ops, collectJumpOperands fuel code i = some ops ∧
          ∀ t ∈ ops, ∃ v, dictGetNat offsets t = .ok v ∧ v < 256) ∧
      (∀ ops, collectJumpOperands fuel code i = some ops →
        (∃ t ∈ ops, ∃ v, dictGetNat offsets t = .ok v ∧ 256 ≤ v) →
        ∀ r, rjaGo offsets fuel code2 i ≠ .ok r) := by
  intro fuel
  induction fuel with
  | zero =>
    intro code code2 i _ _
    exact ⟨fun r hr => Except.noConfusion hr, fun ops hops => Option.noConfusion hops⟩
  | succ f ih =>
    intro code code2 i hlen hagree
    have hgetD : code2.getD i 0 = code.getD i 0 := by
      rw [List.getD_eq_getElem?_getD, List.getD_eq_getElem?_getD,
        ← List.get?_eq_getElem?, ← List.get?_eq_getElem?, hagree i (Nat.le_refl i)]
    have hget1 : code2.get? (i + 1) = code.get? (i + 1) := hagree (i + 1) (by omega)
    by_cases hi : i < code.length
    · by_cases hbpush : Nat.land (code.getD i 0) 0x80 ≠ 0
      · have hr1 : rjaGo offsets (f + 1) code2 i = rjaGo offsets f code2 (i + 2) := by
          conv_lhs => unfold rjaGo
          rw [if_pos (show i < code2.length by omega)]
          dsimp only
          rw [hgetD, if_pos hbpush]
        have hc1 : collectJumpOperands (f + 1) code i = collectJumpOperands f code (i + 2) := by
          conv_lhs => unfold collectJumpOperands
          rw [if_pos hi]
          dsimp only
          rw [if_pos hbpush]
        have hrec := ih code code2 (i + 2) hlen (fun j hj => hagree j (by omega))
        rw [hr1, hc1]
        exact hrec
      · by_cases hbjump : code.getD i 0 ∈ jumpBytes
        · cases hop : code.get? (i + 1) with
          | none =>
            have hr1 : rjaGo offsets (f + 1) code2 i = .error .indexErr := by
              conv_lhs => unfold rjaGo
              rw [if_pos (show i < code2.length by omega)]
              dsimp only
              rw [hgetD, if_neg hbpush, if_pos hbjump, hget1, hop]
            have hc1 : collectJumpOperands (f + 1) code i = none := by
              conv_lhs => unfold collectJumpOperands
              rw [if_pos hi]
              dsimp only
              rw [if_neg hbpush, if_pos hbjump, hop]
            constructor
            · intro r hr
              rw [hr1] at hr
              cases hr
            · intro ops hops
              rw [hc1] at hops
              cases hops
          | some t =>
            cases hdict : dictGetNat offsets t with
            | error e =>
              have hr1 : rjaGo offsets (f + 1) code2 i = .error e := by
                conv_lhs => unfold rjaGo
                rw [if_pos (show i < code2.length by omega)]
                dsimp only
                rw [hgetD, if_neg hbpush, if_pos hbjump, hget1, hop]
                dsimp only
                rw [hdict]
              constructor
              · intro r hr
                rw [hr1] at hr
                cases hr
              · intro ops _ _ r hr
                rw [hr1] at hr
                cases hr
            | ok v =>
              cases hset : pySetByte code2 ((i + 1 : Nat) : Int) v with
              | error e =>
                have hr1 : rjaGo offsets (f + 1) code2 i = .error e := by
                  conv_lhs => unfold rjaGo
                  rw [if_pos (show i < code2.length by omega)]
                  dsimp only
                  rw [hgetD, if_neg hbpush, if_pos hbjump, hget1, hop]
                  dsimp only
                  rw [hdict]
                  dsimp only
                  rw [hset]
                constructor
                · intro r hr
                  rw [hr1] at hr
                  cases hr
                · intro ops _ _ r hr
                  rw [hr1] at hr
                  cases hr
              | ok code3 =>
                obtain ⟨hc3eq, hvlt⟩ := pySetByte_ok_eq hset
                have hr1 : rjaGo offsets (f + 1) code2 i =
                    rjaGo offsets f code3 (i + 1 + 1) := by
                  conv_lhs => unfold rjaGo
                  rw [if_pos (show i < code2.length by omega)]
                  dsimp only
                  rw [hgetD, if_neg hbpush, if_pos hbjump, hget1, hop]
                  dsimp only
                  rw [hdict]
                  dsimp only
                  rw [hset]
                have hlen3 : code3.length = code.length := by
                  rw [hc3eq]
                  simp [hlen]
                have hagree3 : ∀ j, i + 2 ≤ j → code3.get? j = code.get? j := by
                  intro j hj
                  rw [hc3eq, get?_set_ne code2 (i + 1) j v (by omega)]
                  exact hagree j (by omega)
                have hrec := ih code code3 (i + 2) hlen3 hagree3
                constructor
                · intro r hr
                  rw [hr1] at hr
                  obtain ⟨ops, hops, hbounds⟩ := hrec.1 r hr
                  refine ⟨t :: ops, ?_, ?_⟩
                  · conv_lhs => unfold collectJumpOperands
                    rw [if_pos hi]
                    dsimp only
                    rw [if_neg hbpush, if_pos hbjump, hop]
                    dsimp only
                    rw [show i + 1 + 1 = i + 2 from rfl, hops]
                  · intro t2 ht2
                    rcases List.mem_cons.mp ht2 with heq | hmem
                    · subst heq
                      exact ⟨v, hdict, hvlt⟩
                    · exact hbounds t2 hmem
                · intro ops hops hbad r hr
                  have hcshape : ∃ rest, collectJumpOperands f code (i + 2) = some rest ∧
                      ops = t :: rest := by
                    unfold collectJumpOperands at hops
                    rw [if_pos hi] at hops
                    dsimp only at hops
                    rw [if_neg hbpush, if_pos hbjump, hop] at hops
                    dsimp only at hops
                    cases hcr : collectJumpOperands f code (i + 1 + 1) with
                    | none => rw [hcr] at hops; cases hops
                    | some rest =>
                      rw [hcr] at hops
                      cases hops
                      exact ⟨rest, rfl, rfl⟩
                  obtain ⟨rest, hrest, hopseq⟩ := hcshape
                  subst hopseq
                  obtain ⟨t2, ht2, v2, hv2, hbig2⟩ := hbad
                  rcases List.mem_cons.mp ht2 with heq | hmem
                  · subst heq
                    rw [hv2] at hdict
                    cases hdict
                    omega
                  · rw [hr1] at hr
                    exact hrec.2 rest hrest ⟨t2, hmem, v2, hv2, hbig2⟩ r hr
        · have hr1 : rjaGo offsets (f + 1) code2 i = rjaGo offsets f code2 (i + 1) := by
            conv_lhs => unfold rjaGo
            rw [if_pos (show i < code2.length by omega)]
            dsimp only
            rw [hgetD, if_neg hbpush, if_neg hbjump]
          have hc1 : collectJumpOperands (f + 1) code i =
              collectJumpOperands f code (i + 1) := by
            conv_lhs => unfold collectJumpOperands
            rw [if_pos hi]
            dsimp only
            rw [if_neg hbpush, if_neg hbjump]
          rw [hr1, hc1]
          exact ih code code2 (i + 1) hlen (fun j hj => hagree j (by omega))
    · have hr1 : rjaGo offsets (f + 1) code2 i = .ok code2 := by
        conv_lhs => unfold rjaGo
        rw [if_neg (show ¬ i < code2.length by omega)]
      have hc1 : collectJumpOperands (f + 1) code i = some [] := by
        conv_lhs => unfold collectJumpOperands
        rw [if_neg hi]
      constructor
      · intro r _
        exact ⟨[], hc1, by simp⟩
      · intro ops hops hbad r
        rw [hc1] at hops
        cases hops
        obtain ⟨t, ht, _⟩ := hbad
        cases ht

/-- On the two-block cycle, `maximally_extend_path` recurses from block
0 into block 1 and back into block 0 with an unchanged state before any
splice lands, so it exhausts any amount of fuel. -/
theorem mepGo_cycle_diverges (fuel : Nat) :
    mepGo labelsVH fuel pathsVH 0 0 = .error .outOfFuel ∧
    mepGo labelsVH fuel pathsVH 1 0 = .error .outOfFuel := by
  induction fuel with
  | zero => exact ⟨rfl, rfl⟩
  | succ f ih =>
    constructor
    · have hstep : mepGo labelsVH (f + 1) pathsVH 0 0 =
          (match mepGo labelsVH f pathsVH 1 0 with
            | .error e => .error e
            | .ok paths2 =>
              mepGo labelsVH f
                (paths2.set 0 ((paths2.getD 0 []).take 0 ++ paths2.getD 1 [] ++
                  (paths2.getD 0 []).drop 2)) 0 1) := rfl
      rw [hstep, ih.2]
    · have hstep : mepGo labelsVH (f + 1) pathsVH 1 0 =
          (match mepGo labelsVH f pathsVH 0 0 with
            | .error e => .error e
            | .ok paths2 =>
              mepGo labelsVH f
                (paths2.set 1 ((paths2.getD 1 []).take 0 ++ paths2.getD 0 [] ++
                  (paths2.getD 1 []).drop 2)) 1 1) := rfl
      rw [hstep, ih.1]

/-- The coalescing pass over every label of `gridVH` starts with label
0 and therefore exhausts any fuel. -/
theorem coalesceAll_cycle_diverges (fuel : Nat) :
    coalesceAll labelsVH fuel pathsVH = .error .outOfFuel := by
  have hstep : coalesceAll labelsVH fuel pathsVH =
      (match mepGo labelsVH fuel pathsVH 0 0 with
        | .error e => .error e
        | .ok paths2 => coalesceAllGo labelsVH fuel [⟨(0, 1), (0, -1), 1⟩] paths2) := rfl
  rw [hstep, (mepGo_cycle_diverges fuel).1]

/-- **C3** (code_bug): the claim says the coalescer terminates for every
grid the earlier phases accept, detecting and skipping self-targets and
fully-internal cycles.  The two-turn source `"v\n^"` is accepted by
loading, label enumeration and path parsing, but its two singly
referenced blocks form a cycle with no external entry, and
`maximally_extend_path` — run on every label by `compile` — recurses
between them forever: the whole compilation exhausts every fuel bound
(the Python code dies with `RecursionError`). -/
theorem c3_coalescer_diverges_on_turn_cycle :
    (loadString "v\n^").map (fun L => L.grid) = .ok gridVH ∧
    findPathHeads gridVH = .ok (labels0VH, []) ∧
    parsePaths gridVH 1 10 labels0VH = .ok (labelsVH, pathsVH) ∧
    (∀ fuel, coalesceAll labelsVH fuel pathsVH = .error .outOfFuel) ∧
    (∀ fuel, compile fuel "v\n^" = .error .outOfFuel) := by
  refine ⟨by rfl, by rfl, by rfl, coalesceAll_cycle_diverges, ?_⟩
  intro fuel
  cases fuel with
  | zero => rfl
  | succ f =>
    have hfront : compileFront (f + 1) "v\n^" =
        (match coalesceAll labelsVH (f + 1) pathsVH with
          | .error e => .error e
          | .ok paths =>
            match layoutGo paths (f + 1) [] [] [] [] 11 with
            | .error e => .error e
            | .ok (code, offsets) =>
              .ok ⟨⟨1, 2, gridVH, []⟩, labelsVH, [], paths,
                [74, 69, 68, 63, 1, 0, 255, 255, 255, 255, 0], code, offsets⟩) := rfl
    have hfrontErr : compileFront (f + 1) "v\n^" = .error .outOfFuel := by
      rw [hfront, coalesceAll_cycle_diverges (f + 1)]
    unfold compile
    rw [hfrontErr]

/-- **C7** counterexample to the claim as stated: this grid produces
exactly 255 labels — not strictly more — yet `find_path_heads` raises
`TooManyLabelsError`; the grid comes from a real 255-character source
line. -/
theorem c7_counterexample_exactly_255 :
    labelCount gridTurns255 = 255 ∧
    findPathHeads gridTurns255 = .error .tooManyLabels ∧
    (loadString (String.mk (List.replicate 255 '>'))).map (fun L => L.grid) =
      .ok gridTurns255 := by
  refine ⟨by decide, by rfl, by rfl⟩

/-- **C6** counterexample to the claim as stated: for the source
`"E@\n;"` the only row not terminated by a comment (row 0) has exactly
the declared width 2, yet `load_string` raises `MalformedGridError` for
the comment-only row 1 — the claim's "only if" direction fails. -/
theorem c6_counterexample_comment_row_rejected :
    loadString "E@\n;" = .error (.malformedGrid 1) ∧
    splitlines "E@\n;" = [['E', '@'], [';']] ∧
    (∀ r ∈ splitlines "E@\n;", (';' ∈ r) ∨ r.length = 2) := by
  refine ⟨by rfl, by rfl, by decide⟩

/-- If the back end of `compile` succeeds, every entry point's resolved
offset and every long-form jump operand's resolved offset fits in a
byte. -/
theorem compileBack_ok_bounds (fuel : Nat) (p : PreImage) (image : List Nat)
    (h : compileBack fuel p = .ok image) :
    (∀ ep ∈ p.entryPoints, ∀ v, dictGetNat p.offsets ep = .ok v → v < 256) ∧
    (∃ ops, collectJumpOperands fuel p.code 0 = some ops ∧
      ∀ t ∈ ops, ∃ v, dictGetNat p.offsets t = .ok v ∧ v < 256) := by
  unfold compileBack at h
  dsimp only at h
  obtain ⟨h1, hh1, h⟩ := bindOk h
  obtain ⟨h2, hh2, h⟩ := bindOk h
  obtain ⟨h3, hh3, h⟩ := bindOk h
  obtain ⟨h4, hh4, h⟩ := bindOk h
  obtain ⟨h5, hh5, h⟩ := bindOk h
  obtain ⟨code, hcode, _⟩ := bindOk h
  exact ⟨fun ep hep v hv =>
      resolveEntry_ok_bounds p.offsets p.entryPoints h4 11 h5 hh5 ep hep v hv,
    (rjaGo_collect p.offsets fuel p.code p.code 0 rfl (fun j _ => rfl)).1 code hcode⟩

/-- If some entry point or some collected jump operand resolves to an
offset of 256 or more, the back end cannot produce an image. -/
theorem compileBack_err_of_big (fuel : Nat) (p : PreImage)
    (hbad : (∃ ep ∈ p.entryPoints, ∃ v, dictGetNat p.offsets ep = .ok v ∧ 256 ≤ v) ∨
      (∃ ops, collectJumpOperands fuel p.code 0 = some ops ∧
        ∃ t ∈ ops, ∃ v, dictGetNat p.offsets t = .ok v ∧ 256 ≤ v)) :
    ∀ image, compileBack fuel p ≠ .ok image := by
  intro image h
  unfold compileBack at h
  dsimp only at h
  obtain ⟨h1, hh1, h⟩ := bindOk h
  obtain ⟨h2, hh2, h⟩ := bindOk h
  obtain ⟨h3, hh3, h⟩ := bindOk h
  obtain ⟨h4, hh4, h⟩ := bindOk h
  obtain ⟨h5, hh5, h⟩ := bindOk h
  obtain ⟨code, hcode, _⟩ := bindOk h
  cases hbad with
  | inl hb => exact resolveEntry_err_of_big p.offsets p.entryPoints h4 11 hb h5 hh5
  | inr hb =>
    obtain ⟨ops, hops, hbig⟩ := hb
    exact (rjaGo_collect p.offsets fuel p.code p.code 0 rfl (fun j _ => rfl)).2
      ops hops hbig code hcode

/-- **C10.** If `compile` returns an image, every back-patched
entry-point offset and every long-form jump operand's resolved offset
fits in a single byte; conversely, if the layout resolves some entry
point or some jump operand's label to an offset of 256 or more,
compilation fails (the range-checked bytearray write raises) rather
than emitting a wrapped operand. -/
theorem c10_patched_offsets_byte_checked (fuel : Nat) (src : String) (p : PreImage)
    (hfront : compileFront fuel src = .ok p) :
    (∀ image, compile fuel src = .ok image →
      (∀ ep ∈ p.entryPoints, ∀ v, dictGetNat p.offsets ep = .ok v → v < 256) ∧
      (∃ ops, collectJumpOperands fuel p.code 0 = some ops ∧
        ∀ t ∈ ops, ∃ v, dictGetNat p.offsets t = .ok v ∧ v < 256)) ∧
    (((∃ ep ∈ p.entryPoints, ∃ v, dictGetNat p.offsets ep = .ok v ∧ 256 ≤ v) ∨
      (∃ ops, collectJumpOperands fuel p.code 0 = some ops ∧
        ∃ t ∈ ops, ∃ v, dictGetNat p.offsets t = .ok v ∧ 256 ≤ v)) →
      ∀ image, compile fuel src ≠ .ok image) := by
  have hc : compile fuel src = compileBack fuel p := by
    unfold compile
    rw [hfront]
  refine ⟨fun image him => ?_, fun hbad image him => ?_⟩
  · rw [hc] at him
    exact compileBack_ok_bounds fuel p image him
  · rw [hc] at him
    exact compileBack_err_of_big fuel p hbad image him

/-- Witness for C10 at the concrete source `c10src`: its front end
succeeds (discharged by computation) and the theorem's two parts are
obtained for the resulting `PreImage`. -/
theorem c10_patched_offsets_byte_checked_witness :
    (∀ image, compile 2000 c10src = .ok image →
      (∀ ep ∈ c10pre.entryPoints, ∀ v, dictGetNat c10pre.offsets ep = .ok v → v < 256) ∧
      (∃ ops, collectJumpOperands 2000 c10pre.code 0 = some ops ∧
        ∀ t ∈ ops, ∃ v, dictGetNat c10pre.offsets t = .ok v ∧ v < 256)) ∧
    (((∃ ep ∈ c10pre.entryPoints, ∃ v, dictGetNat c10pre.offsets ep = .ok v ∧ 256 ≤ v) ∨
      (∃ ops, collectJumpOperands 2000 c10pre.code 0 = some ops ∧
        ∃ t ∈ ops, ∃ v, dictGetNat c10pre.offsets t = .ok v ∧ 256 ≤ v)) →
      ∀ image, compile 2000 c10src ≠ .ok image) :=
  c10_patched_offsets_byte_checked 2000 c10src c10pre rfl

/-- On a clean block, `maximally_extend_path`'s walk is the identity on
the whole paths table. -/
theorem mepGo_id_of_clean (labels : List Label) :
    ∀ (fuel : Nat) (paths : List (List Nat)) (idx i : Nat) (path : List Nat),
      paths.get? idx = some path →
      scanClean labels fuel path i = true →
      mepGo labels fuel paths idx i = .ok paths := by
  intro fuel
  induction fuel with
  | zero =>
    intro paths idx i path _ hclean
    cases hclean
  | succ f ih =>
    intro paths idx i path hget hclean
    unfold scanClean at hclean
    conv_lhs => unfold mepGo
    rw [hget]
    dsimp only
    by_cases hi : i < path.length
    · rw [if_pos hi] at hclean ⊢
      dsimp only at hclean ⊢
      by_cases hbpush : Nat.land (path.getD i 0) 0x80 ≠ 0
      · rw [if_pos hbpush] at hclean ⊢
        exact ih paths idx (i + 2) path hget hclean
      · rw [if_neg hbpush] at hclean ⊢
        by_cases hbjump : path.getD i 0 ∈ jumpBytes
        · rw [if_pos hbjump] at hclean ⊢
          cases hop : path.get? (i + 1) with
          | none => rw [hop] at hclean; cases hclean
          | some target =>
            rw [hop] at hclean
            dsimp only at hclean ⊢
            cases hlab : labels.get? target with
            | none => rw [hlab] at hclean; cases hclean
            | some lab =>
              rw [hlab] at hclean
              dsimp only at hclean ⊢
              by_cases hrc : lab.refcount < 2
              · rw [if_pos hrc] at hclean
                cases hclean
              · rw [if_neg hrc] at hclean ⊢
                exact ih paths idx (i + 1) path hget hclean
        · rw [if_neg hbjump] at hclean ⊢
          exact ih paths idx (i + 1) path hget hclean
    · rw [if_neg hi]

/-- The per-label coalescing loop is the identity when every block's
scan is clean. -/
theorem coalesceAllGo_id_of_clean (labels : List Label) (fuel : Nat)
    (paths : List (List Nat))
    (hclean : ∀ path ∈ paths, scanClean labels fuel path 0 = true) :
    ∀ labs : List Label,
      (∀ lab ∈ labs, ∃ idx, getLabelIndex labels lab.location lab.direction = .ok idx ∧
        idx < paths.length) →
      coalesceAllGo labels fuel labs paths = .ok paths := by
  intro labs
  induction labs with
  | nil => intro _; rfl
  | cons lab rest ih =>
    intro h
    obtain ⟨idx, hgli, hlt⟩ := h lab (List.mem_cons_self lab rest)
    have hgetE : paths.get? idx = some paths[idx] := by
      rw [List.get?_eq_getElem?, List.getElem?_eq_getElem hlt]
    have hmem : paths[idx] ∈ paths := List.getElem_mem hlt
    have hmep := mepGo_id_of_clean labels fuel paths idx 0 _ hgetE (hclean _ hmem)
    conv_lhs => unfold coalesceAllGo
    rw [hgli]
    dsimp only
    rw [hmep]
    exact ih (fun l hl => h l (List.mem_cons_of_mem lab hl))

/-- **C8** (amended): coalescing is not idempotent in general, but one
pass is the identity on every clean state: if each label resolves to a
block index and no block's scan meets a long-form jump to a label of
refcount below 2, a further coalescer pass returns the blocks
byte-for-byte unchanged. -/
theorem c8_coalesce_identity_on_clean (labels : List Label) (fuel : Nat)
    (paths : List (List Nat))
    (hidx : labelIndexOk labels paths.length = true)
    (hclean : paths.all (fun path => scanClean labels fuel path 0) = true) :
    coalesceAll labels fuel paths = .ok paths := by
  have hclean2 : ∀ path ∈ paths, scanClean labels fuel path 0 = true := by
    intro path hp
    exact List.all_eq_true.mp hclean path hp
  have hidx2 : ∀ lab ∈ labels, ∃ idx,
      getLabelIndex labels lab.location lab.direction = .ok idx ∧ idx < paths.length := by
    intro lab hlab
    have h1 := List.all_eq_true.mp hidx lab hlab
    cases hg : getLabelIndex labels lab.location lab.direction with
    | error e => rw [hg] at h1; cases h1
    | ok idx =>
      rw [hg] at h1
      exact ⟨idx, rfl, by exact_mod_cast of_decide_eq_true h1⟩
  unfold coalesceAll
  exact coalesceAllGo_id_of_clean labels fuel paths hclean2 labels hidx2

/-- Witness for the amended C8 at a concrete clean state: three labels,
blocks `[[0], [], [0]]` (no jumps at all), one further pass is the
identity. -/
theorem c8_coalesce_identity_on_clean_witness :
    labelIndexOk labelsC8 ([[0], [], [0]] : List (List Nat)).length = true ∧
    ([[0], [], [0]] : List (List Nat)).all (fun path => scanClean labelsC8 10 path 0) = true ∧
    coalesceAll labelsC8 10 [[0], [], [0]] = .ok [[0], [], [0]] :=
  ⟨by decide, by decide,
    c8_coalesce_identity_on_clean labelsC8 10 [[0], [], [0]] (by decide) (by decide)⟩

/-- **C8** counterexample to idempotence as claimed: the coalescer
terminates on `pathsC8` (three singly-referenced labels), its first
pass yields `[[79, 2], [], [0]]` — splicing label 1's empty block over
the first jump resumes one byte further and never examines the second
jump — and a second pass inlines that remaining jump, changing block 0. -/
theorem c8_counterexample_second_pass_changes :
    coalesceAll labelsC8 100 pathsC8 = .ok [[79, 2], [], [0]] ∧
    coalesceAll labelsC8 100 [[79, 2], [], [0]] = .ok [[0], [], [0]] ∧
    ([[0], [], [0]] : List (List Nat)) ≠ [[79, 2], [], [0]] :=
  ⟨rfl, rfl, by decide⟩

end Robots
